import Mathlib

/-!
# Verification of the l2l3_orderbook book-reconstruction subsystem

Shallow embedding of `src/backtest/bots/l2l3_orderbook/` (Python) in Lean 4:

* `binance_l2.py` — `BinanceL2BookBuilder`: diff-stream ("L2") book builder
  (snapshot load, buffered-delta replay, live consumption with gap detection,
  top-N emission, outer resync-counting retry loop).
* `coinbase_l3.py` — `CoinbaseL3BookBuilder`: order-stream ("L3") book builder
  (order map plus aggregated per-side levels, open/match/done/change message
  semantics, snapshot-failure L2 fallback).
* `storage.py` — `RollingParquetWriter` / `StorageSink`: time-bucketed,
  merge-on-flush persistence and the sink consume loop.
* `models.py` — `BookState`.

Python `float` prices and quantities are embedded as `ℚ`; Python `dict`s are
embedded as insertion-ordered association lists with unique keys, with
`dictGet` / `dictSet` / `dictPop` mirroring `d.get`, `d[k] = v` and
`d.pop(k, None)`.  Wall-clock timestamps enter the model as explicit
parameters.  Network transport, JSON parsing and asyncio scheduling are
outside the embedding; where a claim is about the scheduling mechanism the
publish call site is reflected by `PublishMechanism` below.
-/

namespace OB

/-! ## Association-list dictionaries (Python `dict`) -/

/-- Python `d.get(k)` / `d[k]`: value at the first entry with key `k`. -/
def dictGet {α β : Type} [DecidableEq α] (m : List (α × β)) (k : α) : Option β :=
  match m with
  | [] => none
  | kv :: rest => if kv.1 = k then some kv.2 else dictGet rest k

/-- Python `d[k] = v`: replace the (unique) entry with key `k`, else append. -/
def dictSet {α β : Type} [DecidableEq α] (m : List (α × β)) (k : α) (v : β) :
    List (α × β) :=
  match m with
  | [] => [(k, v)]
  | kv :: rest => if kv.1 = k then (k, v) :: rest else kv :: dictSet rest k v

/-- Python `d.pop(k, None)` (ignoring the returned value): drop the entry with key `k`. -/
def dictPop {α β : Type} [DecidableEq α] (m : List (α × β)) (k : α) :
    List (α × β) :=
  match m with
  | [] => []
  | kv :: rest => if kv.1 = k then rest else kv :: dictPop rest k

/-- Python dicts have unique keys; our association lists maintain this. -/
def NodupKeys {α β : Type} (m : List (α × β)) : Prop :=
  (m.map Prod.fst).Nodup

/-! ## Insertion sort by a boolean `le` (Python `sorted(..., key=...)`) -/

def insertSorted {α : Type} (le : α → α → Bool) (a : α) : List α → List α
  | [] => [a]
  | x :: xs => if le a x then a :: x :: xs else x :: insertSorted le a xs

def sortBy {α : Type} (le : α → α → Bool) : List α → List α
  | [] => []
  | a :: rest => insertSorted le a (sortBy le rest)

/-! ## BookState (`models.py`) -/

/-- Mirrors `models.BookState`.  `venue` and `kind` are the Python string literals. -/
structure BookState where
  venue : String
  symbol : String
  ts_exchange_ms : Option ℕ
  ts_local_ms : ℕ
  kind : String
  best_bid : ℚ
  best_ask : ℚ
  bids : List (ℚ × ℚ)
  asks : List (ℚ × ℚ)
  l3_order_count : Option ℕ := none
  deriving DecidableEq, Repr

/-! ## Diff-stream ("L2") builder: `binance_l2.py`, `BinanceL2BookBuilder` -/

/-- A Binance `depthUpdate` event: start-id `U`, end-id `u`, bid and ask
level entries `b` / `a`, exchange timestamp `E` (ms, optional). -/
structure Delta where
  U : ℕ
  u : ℕ
  b : List (ℚ × ℚ)
  a : List (ℚ × ℚ)
  E : Option ℕ := none
  deriving DecidableEq, Repr

/-- The REST depth snapshot: `lastUpdateId`, raw bid and ask entries. -/
structure L2Snapshot where
  lastUpdateId : ℕ
  bids : List (ℚ × ℚ)
  asks : List (ℚ × ℚ)
  deriving DecidableEq, Repr

/-- The builder's mutable book state: bid/ask price→qty maps and the
cursor `self.book_update_id`. -/
structure L2State where
  bids : List (ℚ × ℚ)
  asks : List (ℚ × ℚ)
  bookUpdateId : ℕ
  deriving DecidableEq, Repr

/-- One level entry of `_apply_event`: qty 0 deletes the price, otherwise
the qty replaces the stored one. -/
def applyLevel (m : List (ℚ × ℚ)) (pq : ℚ × ℚ) : List (ℚ × ℚ) :=
  if pq.2 = 0 then dictPop m pq.1 else dictSet m pq.1 pq.2

/-- Mirrors `BinanceL2BookBuilder._apply_event` (lines 150–165): fold the delta's
bid entries into the bid map and ask entries into the ask map.
(`self._last_event_ts` is observability only and not modelled.) -/
def applyEvent (s : L2State) (d : Delta) : L2State :=
  { s with
    bids := d.b.foldl applyLevel s.bids
    asks := d.a.foldl applyLevel s.asks }

/-- Mirrors `_load_snapshot` (lines 146–148) plus `self.book_update_id = last_id`
(line 91): dict-comprehension over entries with positive quantity. -/
def loadSnapshot (snap : L2Snapshot) : L2State :=
  { bids := (snap.bids.filter (fun pq => 0 < pq.2)).foldl
      (fun m pq => dictSet m pq.1 pq.2) []
    asks := (snap.asks.filter (fun pq => 0 < pq.2)).foldl
      (fun m pq => dictSet m pq.1 pq.2) []
    bookUpdateId := snap.lastUpdateId }

/-- The only error the L2 state machine raises: `RuntimeError("binance_l2_gap")`. -/
inductive L2Error where
  | gap
  deriving DecidableEq, Repr

/-- One iteration of the buffered-delta replay loop
(`_run_once` lines 96–107).  Returns the new state and the `applied` flag. -/
def replayStep (s : L2State) (d : Delta) : Except L2Error (L2State × Bool) :=
  if d.u ≤ s.bookUpdateId then .ok (s, false)
  else if d.U ≤ s.bookUpdateId + 1 ∧ s.bookUpdateId + 1 ≤ d.u then
    .ok ({ applyEvent s d with bookUpdateId := d.u }, true)
  else if s.bookUpdateId + 1 < d.U then .error .gap
  else .ok (s, false)

/-- The whole buffered-replay `for` loop over a delta list. -/
def replay (s : L2State) : List Delta → Except L2Error L2State
  | [] => .ok s
  | d :: rest =>
    match replayStep s d with
    | .error e => .error e
    | .ok (s', _) => replay s' rest

/-- Price-descending ordering on (price, qty) pairs, as used for bids in
`_top_levels` / `_emit_state` (`sorted(..., reverse=True)`). -/
def priceDesc (x y : ℚ × ℚ) : Bool := decide (y.1 ≤ x.1)

/-- Price-ascending ordering on (price, qty) pairs, as used for asks. -/
def priceAsc (x y : ℚ × ℚ) : Bool := decide (x.1 ≤ y.1)

/-- Mirrors `_top_levels` (lines 167–170): sort each side toward the midpoint
and keep the best `top_n` levels. -/
def topLevels (topN : ℕ) (s : L2State) : List (ℚ × ℚ) × List (ℚ × ℚ) :=
  ((sortBy priceDesc s.bids).take topN, (sortBy priceAsc s.asks).take topN)

/-- Mirrors `_emit_state` (lines 172–192): sort (full book or top-N), return
`none` when either side is empty (nothing published), otherwise the fresh
`BookState`.  The detached `asyncio.create_task(bus.publish(...))` on
line 193 is reflected separately by `binanceL2PublishMechanism`. -/
def emitState (symbol : String) (topN : ℕ) (emitFull : Bool) (nowMs : ℕ)
    (s : L2State) (tsExchangeMs : Option ℕ) : Option BookState :=
  match (if emitFull then sortBy priceDesc s.bids
         else (sortBy priceDesc s.bids).take topN),
        (if emitFull then sortBy priceAsc s.asks
         else (sortBy priceAsc s.asks).take topN) with
  | [], _ => none
  | _, [] => none
  | b0 :: brest, a0 :: arest =>
    some { venue := "binance"
           symbol := symbol
           ts_exchange_ms := some (tsExchangeMs.getD nowMs)
           ts_local_ms := nowMs
           kind := "L2"
           best_bid := b0.1
           best_ask := a0.1
           bids := b0 :: brest
           asks := a0 :: arest
           l3_order_count := none }

/-- One iteration of the live consumption loop (`_run_once` lines 123–133):
skip stale deltas, raise on a gap, otherwise apply, advance the cursor and
emit.  Returns the new state and the emitted `BookState`, if any. -/
def liveStep (symbol : String) (topN : ℕ) (emitFull : Bool) (nowMs : ℕ)
    (s : L2State) (d : Delta) : Except L2Error (L2State × Option BookState) :=
  if d.u ≤ s.bookUpdateId then .ok (s, none)
  else if s.bookUpdateId + 1 < d.U then .error .gap
  else
    let s' := { applyEvent s d with bookUpdateId := d.u }
    .ok (s', emitState symbol topN emitFull nowMs s' d.E)

/-- The live consumption loop over a delta list, collecting every published
`BookState` in order. -/
def runLive (symbol : String) (topN : ℕ) (emitFull : Bool) (nowMs : ℕ)
    (s : L2State) : List Delta → Except L2Error (L2State × List BookState)
  | [] => .ok (s, [])
  | d :: rest =>
    match liveStep symbol topN emitFull nowMs s d with
    | .error e => .error e
    | .ok (s', out) =>
      match runLive symbol topN emitFull nowMs s' rest with
      | .error e => .error e
      | .ok (s'', outs) => .ok (s'', (out.toList) ++ outs)

/-- Mirrors one iteration of `BinanceL2BookBuilder.start` (lines 40–47, and
identically `CoinbaseL3BookBuilder.start` lines 37–44): when `_run_once`
raises, the per-venue resync counter is incremented by one before the
backoff sleep and restart; a clean return leaves it unchanged. -/
def startStep {ε α : Type} (resyncCount : ℕ) (runOnceResult : Except ε α) : ℕ :=
  match runOnceResult with
  | .ok _ => resyncCount
  | .error _ => resyncCount + 1

/-! ## Publish mechanism (design-note claim) -/

/-- How a builder hands a fresh `BookState` to the bus: either a direct
`await bus.publish(...)` on the builder's own task, or a detached
per-event task (`asyncio.create_task(bus.publish(...))`). -/
inductive PublishMechanism where
  | awaitedCall
  | detachedTask
  deriving DecidableEq, Repr

/-- Publish call site of `BinanceL2BookBuilder._emit_state` (line 193):
`asyncio.create_task(self.bus.publish(Event(type="book_state", payload=state)))`,
a detached per-event task. -/
def binanceL2PublishMechanism : PublishMechanism := .detachedTask

/-- Publish call site of `CoinbaseL3BookBuilder._emit_state` (line 246; the
L2-fallback `_emit_state_l2`, line 266, is identical):
`asyncio.create_task(self.bus.publish(Event(type="book_state", payload=state)))`,
a detached per-event task. -/
def coinbaseL3PublishMechanism : PublishMechanism := .detachedTask

/-! ## Order-stream ("L3") builder: `coinbase_l3.py`, `CoinbaseL3BookBuilder`

The `self.levels` dict has exactly the two keys `"buy"` and `"sell"`
(`{"buy": {}, "sell": {}}`), so the side is embedded as a two-value type;
an order's stored side string selects one of the two level maps. -/

inductive Side where
  | buy
  | sell
  deriving DecidableEq, Repr

/-- One entry of `self.orders`: `{"side": side, "price": price, "size": size}`. -/
structure L3Order where
  side : Side
  price : ℚ
  size : ℚ
  deriving DecidableEq, Repr

/-- The L3 builder's mutable book state: the live-order map, the two
aggregated per-side level maps, and the cursor `self.last_sequence`. -/
structure L3State where
  orders : List (String × L3Order)
  buyLevels : List (ℚ × ℚ)
  sellLevels : List (ℚ × ℚ)
  lastSequence : ℕ
  deriving DecidableEq, Repr

/-- Python `self.levels[side]`: the level map selected by the side string. -/
def levelsOf (s : L3State) (side : Side) : List (ℚ × ℚ) :=
  match side with
  | .buy => s.buyLevels
  | .sell => s.sellLevels

/-- Python `self.levels[side].get(price)`. -/
def getLevelQty (s : L3State) (side : Side) (p : ℚ) : Option ℚ :=
  match side with
  | .buy => dictGet s.buyLevels p
  | .sell => dictGet s.sellLevels p

/-- Python `self.levels[side][price] = q`. -/
def setLevelQty (s : L3State) (side : Side) (p q : ℚ) : L3State :=
  match side with
  | .buy => { s with buyLevels := dictSet s.buyLevels p q }
  | .sell => { s with sellLevels := dictSet s.sellLevels p q }

/-- Python `self.levels[side].pop(price, None)`. -/
def popLevel (s : L3State) (side : Side) (p : ℚ) : L3State :=
  match side with
  | .buy => { s with buyLevels := dictPop s.buyLevels p }
  | .sell => { s with sellLevels := dictPop s.sellLevels p }

/-- Mirrors `_add_order` (lines 143–146): store the order and add its size
to its price level (`level.get(price, 0.0) + size`). -/
def addOrder (s : L3State) (orderId : String) (side : Side) (price size : ℚ) :
    L3State :=
  let s1 := { s with orders := dictSet s.orders orderId ⟨side, price, size⟩ }
  setLevelQty s1 side price ((getLevelQty s1 side price).getD 0 + size)

/-- Mirrors `_remove_order` (lines 148–160): pop the order (no-op when
absent) and subtract its size from its level, dropping the level when the
remainder is `<= 0`. -/
def removeOrder (s : L3State) (orderId : String) : L3State :=
  match dictGet s.orders orderId with
  | none => s
  | some ord =>
    let s1 := { s with orders := dictPop s.orders orderId }
    let newSize := (getLevelQty s1 ord.side ord.price).getD 0 - ord.size
    if newSize ≤ 0 then popLevel s1 ord.side ord.price
    else setLevelQty s1 ord.side ord.price newSize

/-- A Coinbase full-channel message, after JSON field extraction.  Field
absence / Python falsiness of the ids is embedded as the empty string (the
source guards `if not order_id: return` and similar). -/
inductive L3Msg where
  | received
  | openMsg (orderId : String) (side : Side) (price size : ℚ)
  | matchMsg (makerOrderId : String) (size : ℚ)
  | doneMsg (orderId : String)
  | changeMsg (orderId : String) (newSize : ℚ)
  deriving DecidableEq, Repr

/-- Mirrors `_apply_message` (lines 162–214).  Every branch that returns
early in Python returns the state unchanged here; the function is total,
so no branch can raise. -/
def applyMessage (s : L3State) (m : L3Msg) : L3State :=
  match m with
  | .received => s
  | .openMsg orderId side price size =>
    if orderId = "" then s
    else addOrder s orderId side price size
  | .matchMsg makerOrderId size =>
    if makerOrderId = "" then s
    else
      match dictGet s.orders makerOrderId with
      | none => s
      | some ord =>
        if ord.size ≤ size then removeOrder s makerOrderId
        else
          let s1 := { s with
            orders := dictSet s.orders makerOrderId { ord with size := ord.size - size } }
          setLevelQty s1 ord.side ord.price
            (max 0 ((getLevelQty s1 ord.side ord.price).getD 0 - size))
  | .doneMsg orderId =>
    if orderId = "" then s
    else removeOrder s orderId
  | .changeMsg orderId newSize =>
    if orderId = "" then s
    else
      match dictGet s.orders orderId with
      | none => s
      | some ord =>
        if newSize ≤ 0 then removeOrder s orderId
        else
          let s1 := setLevelQty s ord.side ord.price
            (max 0 ((getLevelQty s ord.side ord.price).getD 0 + (newSize - ord.size)))
          { s1 with orders := dictSet s1.orders orderId { ord with size := newSize } }

/-- Contribution of one order to the aggregated quantity at `(side, p)`. -/
def contrib (o : L3Order) (side : Side) (p : ℚ) : ℚ :=
  if o.side = side ∧ o.price = p then o.size else 0

/-- Sum of the remaining sizes of all live orders on `side` at price `p`. -/
def sumAt (orders : List (String × L3Order)) (side : Side) (p : ℚ) : ℚ :=
  match orders with
  | [] => 0
  | kv :: rest => contrib kv.2 side p + sumAt rest side p

/-- Mirrors `CoinbaseL3BookBuilder._top_levels` (lines 216–219). -/
def l3TopLevels (topN : ℕ) (s : L3State) : List (ℚ × ℚ) × List (ℚ × ℚ) :=
  ((sortBy priceDesc s.buyLevels).take topN, (sortBy priceAsc s.sellLevels).take topN)

/-- Mirrors `CoinbaseL3BookBuilder._emit_state` (lines 221–246): top levels,
`kind="L3"`, `l3_order_count = len(self.orders)`; nothing published when a
side is empty.  The detached publish task (line 246) is reflected by
`coinbaseL3PublishMechanism`. -/
def emitStateL3 (productId : String) (topN : ℕ) (nowMs : ℕ) (s : L3State)
    (tsExchangeMs : Option ℕ) : Option BookState :=
  match l3TopLevels topN s with
  | ([], _) => none
  | (_, []) => none
  | (b0 :: brest, a0 :: arest) =>
    some { venue := "coinbase"
           symbol := productId
           ts_exchange_ms := tsExchangeMs
           ts_local_ms := nowMs
           kind := "L3"
           best_bid := b0.1
           best_ask := a0.1
           bids := b0 :: brest
           asks := a0 :: arest
           l3_order_count := some s.orders.length }

/-- The only error the L3 live loop raises on sequencing:
`RuntimeError("coinbase_seq_gap")`. -/
inductive L3Error where
  | seqGap
  deriving DecidableEq, Repr

/-- One iteration of the L3 live consumption loop (`_run_once` lines 90–99):
stale sequence skipped, gap raised, contiguous message applied and emitted. -/
def l3LiveStep (productId : String) (topN : ℕ) (nowMs : ℕ) (s : L3State)
    (m : L3Msg) (seq : ℕ) (tsExchangeMs : Option ℕ) :
    Except L3Error (L3State × Option BookState) :=
  if seq ≤ s.lastSequence then .ok (s, none)
  else if s.lastSequence + 1 < seq then .error .seqGap
  else
    let s' := { applyMessage s m with lastSequence := seq }
    .ok (s', emitStateL3 productId topN nowMs s' tsExchangeMs)

/-! ## L3 snapshot-failure handling and the REST-only L2 fallback -/

/-- Outcome of a failed L3 snapshot fetch at the top of `_run_once`. -/
inductive EpochOutcome where
  | fallbackMode
  | abortEpoch
  deriving DecidableEq, Repr

/-- Mirrors `_run_once` lines 66–73: on a failed snapshot fetch the failure
counter is incremented; once `allow_l2_fallback` holds and the counter has
reached 3, the builder switches to `_run_rest_only`; below that it raises
`RuntimeError("coinbase_l3_snapshot_failed")`, aborting the epoch so the
outer `start` loop retries. -/
def snapshotFailDecision (allowL2Fallback : Bool) (snapshotFailures : ℕ) :
    ℕ × EpochOutcome :=
  let f := snapshotFailures + 1
  if allowL2Fallback ∧ 3 ≤ f then (f, .fallbackMode) else (f, .abortEpoch)

/-- Mirrors `_emit_state_l2` (lines 248–266): truncate the REST level-2
snapshot sides to `top_n`, publish nothing if a side is empty, otherwise a
`BookState` with `kind="L2"` and `l3_order_count=None`; both timestamps are
the local wall clock. -/
def emitStateL2 (productId : String) (topN : ℕ) (nowMs : ℕ)
    (bids asks : List (ℚ × ℚ)) : Option BookState :=
  match bids.take topN, asks.take topN with
  | [], _ => none
  | _, [] => none
  | b0 :: brest, a0 :: arest =>
    some { venue := "coinbase"
           symbol := productId
           ts_exchange_ms := some nowMs
           ts_local_ms := nowMs
           kind := "L2"
           best_bid := b0.1
           best_ask := a0.1
           bids := b0 :: brest
           asks := a0 :: arest
           l3_order_count := none }

/-- One iteration of `_run_rest_only` (lines 268–275): fetch a level-2
snapshot (`none` models a failed fetch) and emit it via `_emit_state_l2`;
no delta is applied and no order-level state is consulted. -/
def restOnlyStep (productId : String) (topN : ℕ) (nowMs : ℕ)
    (snap : Option (List (ℚ × ℚ) × List (ℚ × ℚ))) : Option BookState :=
  match snap with
  | none => none
  | some (bids, asks) => emitStateL2 productId topN nowMs bids asks

/-! ## Storage: `storage.py`, `RollingParquetWriter` and `StorageSink` -/

/-- A flat row as produced by `StorageSink.handle_book` (lines 69–83); the
`json.dumps`-encoded level arrays are kept as the lists themselves. -/
structure Row where
  ts_ms : ℕ
  ts_exchange_ms : Option ℕ
  venue : String
  symbol : String
  kind : String
  best_bid : ℚ
  best_ask : ℚ
  bids : List (ℚ × ℚ)
  asks : List (ℚ × ℚ)
  l3_order_count : Option ℕ
  deriving DecidableEq, Repr

/-- The pandas `drop_duplicates(subset=["ts_ms", "venue"])` key. -/
def rowKey (r : Row) : ℕ × String := (r.ts_ms, r.venue)

/-- Mirrors `_bucket_start_ms` (lines 16–18). -/
def bucketStartMs (tsMs : ℕ) (windowSec : ℕ) : ℕ :=
  let step := windowSec * 1000
  tsMs / step * step

/-- The mutable fields of `RollingParquetWriter`: the current bucket and
the in-memory row buffer. -/
structure WriterState where
  bucketMs : Option ℕ
  rows : List Row
  deriving DecidableEq, Repr

/-- The on-disk pages, keyed by bucket start (the bucket determines the
parquet file path via `_path_for_bucket`). -/
def FS : Type := List (ℕ × List Row)

/-- Pandas `drop_duplicates(subset=["ts_ms", "venue"])`: keep the first row
with each key, preserving order.  `seen` accumulates keys already kept. -/
def dedupGo (seen : List (ℕ × String)) : List Row → List Row
  | [] => []
  | r :: rest =>
    if rowKey r ∈ seen then dedupGo seen rest
    else r :: dedupGo (rowKey r :: seen) rest

def dedupByKey (rs : List Row) : List Row := dedupGo [] rs

/-- Pandas `sort_values("ts_ms")`: ascending by timestamp. -/
def tsLe (r r' : Row) : Bool := decide (r.ts_ms ≤ r'.ts_ms)

def sortRows (rs : List Row) : List Row := sortBy tsLe rs

/-- Mirrors `RollingParquetWriter.flush` (lines 45–60): nothing happens on
an empty buffer; otherwise, if a page already exists for the current bucket
it is read back, concatenated with the buffered rows, de-duplicated on
`(ts_ms, venue)` and sorted by `ts_ms` before rewriting; a fresh bucket is
written as-is.  The buffer is cleared. -/
def flush (fs : FS) (w : WriterState) : FS × WriterState :=
  if w.rows = [] then (fs, w)
  else
    let bucket := w.bucketMs.getD 0
    match dictGet fs bucket with
    | some existing =>
      (dictSet fs bucket (sortRows (dedupByKey (existing ++ w.rows))),
       { w with rows := [] })
    | none =>
      (dictSet fs bucket w.rows, { w with rows := [] })

/-- Mirrors `RollingParquetWriter.write` (lines 30–38): adopt the first
row's bucket, flush on bucket rollover, then append the row to the buffer. -/
def write (windowSec : ℕ) (fs : FS) (w : WriterState) (row : Row) :
    FS × WriterState :=
  let bucket := bucketStartMs row.ts_ms windowSec
  let w0 := if w.bucketMs = none then { w with bucketMs := some bucket } else w
  if w0.bucketMs ≠ some bucket then
    let (fs1, w1) := flush fs w0
    (fs1, { w1 with bucketMs := some bucket, rows := w1.rows ++ [row] })
  else
    (fs, { w0 with rows := w0.rows ++ [row] })

/-- The payload slot of a bus `Event` as seen by the sink.  The Python code
checks only `event.type == "book_state"` before treating the payload as a
`BookState`; a payload that is not one makes the attribute accesses in
`handle_book` raise, which `malformed` models. -/
inductive Payload where
  | book (b : BookState)
  | malformed (description : String)
  deriving DecidableEq, Repr

/-- Mirrors `bus.Event`: a string type tag and a payload. -/
structure SinkEvent where
  type : String
  payload : Payload
  deriving DecidableEq, Repr

/-- Mirrors `StorageSink.handle_book` (lines 69–83): serialize the book into
a flat row.  There is no `try`/`except` in the source, so a failing
serialization is an error result that the caller must propagate. -/
def handleBook (p : Payload) : Except String Row :=
  match p with
  | .book b =>
    .ok { ts_ms := b.ts_local_ms
          ts_exchange_ms := b.ts_exchange_ms
          venue := b.venue
          symbol := b.symbol
          kind := b.kind
          best_bid := b.best_bid
          best_ask := b.best_ask
          bids := b.bids
          asks := b.asks
          l3_order_count := b.l3_order_count }
  | .malformed description => .error description

/-- One iteration of `StorageSink.run` (lines 85–95), without the periodic
flush timer: a `book_state` event is serialized by `handle_book` and the row
buffered via `write`; any other event type is ignored.  `handle_book` is
called bare inside the loop, so a serialization error escapes the loop
(terminating the sink task) rather than being caught. -/
def sinkStep (windowSec : ℕ) (fs : FS) (w : WriterState) (ev : SinkEvent) :
    Except String (FS × WriterState) :=
  if ev.type = "book_state" then
    match handleBook ev.payload with
    | .error e => .error e
    | .ok row => .ok (write windowSec fs w row)
  else
    .ok (fs, w)

/-! ## Specification predicates -/

/-- All quantities stored in a price→qty map are strictly positive. -/
def PosVals (m : List (ℚ × ℚ)) : Prop :=
  ∀ pq ∈ m, 0 < pq.2

/-- The spec's invariants on an emitted `BookState`: strictly positive
quantities on every level, bids price-descending, asks price-ascending, and
`best_bid` / `best_ask` equal to the price of the first element of the
respective list. -/
def EmittedOK (bs : BookState) : Prop :=
  (∀ pq ∈ bs.bids, 0 < pq.2) ∧ (∀ pq ∈ bs.asks, 0 < pq.2) ∧
  bs.bids.Pairwise (fun x y => y.1 ≤ x.1) ∧
  bs.asks.Pairwise (fun x y => x.1 ≤ y.1) ∧
  (∃ q, bs.bids.head? = some (bs.best_bid, q)) ∧
  (∃ q, bs.asks.head? = some (bs.best_ask, q))

/-- Well-formedness of an L3 builder state: unique keys in the order map and
both level maps, non-negative order sizes, strictly positive stored level
quantities, every stored level equal to the sum of live order sizes at its
price, and, for every live order, the level at its price (0 when absent)
equal to that sum. -/
def L3WF (s : L3State) : Prop :=
  NodupKeys s.orders ∧
  (∀ side, NodupKeys (levelsOf s side)) ∧
  (∀ kv ∈ s.orders, 0 ≤ kv.2.size) ∧
  (∀ side, ∀ pq ∈ levelsOf s side, 0 < pq.2) ∧
  (∀ side, ∀ pq ∈ levelsOf s side, pq.2 = sumAt s.orders side pq.1) ∧
  (∀ kv ∈ s.orders, (getLevelQty s kv.2.side kv.2.price).getD 0 =
    sumAt s.orders kv.2.side kv.2.price)

/-- The aggregation invariant as the spec states it: at every side and
price, the stored aggregated quantity is the sum of the remaining sizes of
all live orders there, the level being absent exactly when that sum is 0. -/
def LevelAgg (s : L3State) : Prop :=
  ∀ (side : Side) (p : ℚ),
    getLevelQty s side p =
      if sumAt s.orders side p = 0 then none else some (sumAt s.orders side p)

/-! ## Dictionary lemmas -/

theorem dictGet_dictSet_self {α β : Type} [DecidableEq α] (m : List (α × β))
    (k : α) (v : β) : dictGet (dictSet m k v) k = some v := by
  induction m with
  | nil => simp [dictGet, dictSet]
  | cons kv rest ih =>
    by_cases h : kv.1 = k
    · simp [dictSet, dictGet, h]
    · simp [dictSet, dictGet, h, ih]

theorem dictGet_dictSet_ne {α β : Type} [DecidableEq α] (m : List (α × β))
    (k k' : α) (v : β) (h : k' ≠ k) :
    dictGet (dictSet m k v) k' = dictGet m k' := by
  induction m with
  | nil => simp [dictGet, dictSet, Ne.symm h]
  | cons kv rest ih =>
    by_cases hk : kv.1 = k
    · subst hk
      simp [dictSet, dictGet, Ne.symm h]
    · by_cases hk' : kv.1 = k'
      · simp [dictSet, dictGet, hk, hk', h]
      · simp [dictSet, dictGet, hk, hk', ih]

theorem dictGet_eq_none_iff {α β : Type} [DecidableEq α] (m : List (α × β))
    (k : α) : dictGet m k = none ↔ k ∉ m.map Prod.fst := by
  induction m with
  | nil => simp [dictGet]
  | cons kv rest ih =>
    by_cases h : kv.1 = k
    · simp [dictGet, h]
    · simp only [dictGet, if_neg h, ih, List.map_cons, List.mem_cons]
      constructor
      · intro h1 h2
        rcases h2 with h3 | h3
        · exact h h3.symm
        · exact h1 h3
      · intro h1 h2
        exact h1 (Or.inr h2)

theorem mem_of_dictGet {α β : Type} [DecidableEq α] (m : List (α × β))
    (k : α) (v : β) (h : dictGet m k = some v) : (k, v) ∈ m := by
  induction m with
  | nil => simp [dictGet] at h
  | cons kv rest ih =>
    by_cases hk : kv.1 = k
    · rw [dictGet, if_pos hk] at h
      have hv : kv.2 = v := Option.some.inj h
      have : kv = (k, v) := Prod.ext hk hv
      rw [← this]
      exact List.mem_cons_self kv rest
    · rw [dictGet, if_neg hk] at h
      exact List.mem_cons_of_mem kv (ih h)

theorem dictGet_of_mem {α β : Type} [DecidableEq α] (m : List (α × β))
    (kv : α × β) (hnd : NodupKeys m) (h : kv ∈ m) :
    dictGet m kv.1 = some kv.2 := by
  induction m with
  | nil => simp at h
  | cons x rest ih =>
    rcases List.mem_cons.mp h with h1 | h1
    · rw [h1, dictGet, if_pos rfl]
    · have hx : x.1 ≠ kv.1 := by
        intro hcontra
        have : kv.1 ∈ rest.map Prod.fst := List.mem_map_of_mem Prod.fst h1
        rw [← hcontra] at this
        exact (List.nodup_cons.mp hnd).1 this
      rw [dictGet, if_neg hx]
      exact ih (List.nodup_cons.mp hnd).2 h1

theorem keys_dictSet_subset {α β : Type} [DecidableEq α] (m : List (α × β))
    (k : α) (v : β) (a : α) (h : a ∈ (dictSet m k v).map Prod.fst) :
    a = k ∨ a ∈ m.map Prod.fst := by
  induction m with
  | nil => simpa [dictSet] using h
  | cons kv rest ih =>
    by_cases hk : kv.1 = k
    · rw [dictSet, if_pos hk] at h
      rcases List.mem_map.mp h with ⟨x, hx, hax⟩
      subst hax
      rcases List.mem_cons.mp hx with h1 | h1
      · left; rw [h1]
      · right
        rw [List.map_cons]
        exact List.mem_cons_of_mem _ (List.mem_map_of_mem Prod.fst h1)
    · rw [dictSet, if_neg hk] at h
      rcases List.mem_map.mp h with ⟨x, hx, hax⟩
      subst hax
      rcases List.mem_cons.mp hx with h1 | h1
      · right; rw [h1, List.map_cons]; exact List.mem_cons_self _ _
      · rcases ih (List.mem_map_of_mem Prod.fst h1) with h2 | h2
        · left; exact h2
        · right; rw [List.map_cons]; exact List.mem_cons_of_mem _ h2

theorem nodupKeys_dictSet {α β : Type} [DecidableEq α] (m : List (α × β))
    (k : α) (v : β) (hnd : NodupKeys m) : NodupKeys (dictSet m k v) := by
  induction m with
  | nil => simp [dictSet, NodupKeys]
  | cons kv rest ih =>
    obtain ⟨hknotin, hrest⟩ := List.nodup_cons.mp hnd
    by_cases hk : kv.1 = k
    · rw [NodupKeys, dictSet, if_pos hk, List.map_cons]
      exact List.nodup_cons.mpr ⟨hk ▸ hknotin, hrest⟩
    · rw [NodupKeys, dictSet, if_neg hk, List.map_cons]
      refine List.nodup_cons.mpr ⟨?_, ih hrest⟩
      intro hmem
      rcases keys_dictSet_subset rest k v kv.1 hmem with h1 | h1
      · exact hk h1
      · exact hknotin h1

theorem keys_dictPop_sublist {α β : Type} [DecidableEq α] (m : List (α × β))
    (k : α) :
    List.Sublist ((dictPop m k).map Prod.fst) (m.map Prod.fst) := by
  induction m with
  | nil => simp [dictPop]
  | cons kv rest ih =>
    by_cases hk : kv.1 = k
    · rw [dictPop, if_pos hk, List.map_cons]
      exact List.Sublist.cons kv.1 (List.Sublist.refl _)
    · rw [dictPop, if_neg hk, List.map_cons, List.map_cons]
      exact List.Sublist.cons₂ kv.1 ih

theorem nodupKeys_dictPop {α β : Type} [DecidableEq α] (m : List (α × β))
    (k : α) (hnd : NodupKeys m) : NodupKeys (dictPop m k) :=
  (keys_dictPop_sublist m k).nodup hnd

theorem dictGet_dictPop_self {α β : Type} [DecidableEq α] (m : List (α × β))
    (k : α) (hnd : NodupKeys m) : dictGet (dictPop m k) k = none := by
  induction m with
  | nil => simp [dictGet, dictPop]
  | cons kv rest ih =>
    obtain ⟨hknotin, hrest⟩ := List.nodup_cons.mp hnd
    by_cases hk : kv.1 = k
    · rw [dictPop, if_pos hk]
      exact (dictGet_eq_none_iff rest k).mpr (hk ▸ hknotin)
    · rw [dictPop, if_neg hk, dictGet, if_neg hk]
      exact ih hrest

theorem dictGet_dictPop_ne {α β : Type} [DecidableEq α] (m : List (α × β))
    (k k' : α) (h : k' ≠ k) : dictGet (dictPop m k) k' = dictGet m k' := by
  induction m with
  | nil => simp [dictGet, dictPop]
  | cons kv rest ih =>
    by_cases hk : kv.1 = k
    · rw [dictPop, if_pos hk, dictGet, if_neg (fun h' : kv.1 = k' => h (h' ▸ hk ▸ rfl))]
    · by_cases hk' : kv.1 = k'
      · rw [dictPop, if_neg hk, dictGet, if_pos hk', dictGet, if_pos hk']
      · rw [dictPop, if_neg hk, dictGet, if_neg hk', dictGet, if_neg hk']
        exact ih

theorem mem_dictSet_iff {α β : Type} [DecidableEq α] (m : List (α × β))
    (k : α) (v : β) (kv' : α × β) (hnd : NodupKeys m) :
    kv' ∈ dictSet m k v ↔ kv' = (k, v) ∨ (kv' ∈ m ∧ kv'.1 ≠ k) := by
  induction m with
  | nil => simp [dictSet]
  | cons x rest ih =>
    obtain ⟨hknotin, hrest⟩ := List.nodup_cons.mp hnd
    by_cases hk : x.1 = k
    · rw [dictSet, if_pos hk]
      constructor
      · intro h
        rcases List.mem_cons.mp h with h1 | h1
        · exact Or.inl h1
        · refine Or.inr ⟨List.mem_cons_of_mem x h1, ?_⟩
          intro hcontra
          exact (hk ▸ hknotin) (hcontra ▸ List.mem_map_of_mem Prod.fst h1)
      · intro h
        rcases h with h1 | ⟨h1, h2⟩
        · exact h1 ▸ List.mem_cons_self _ _
        · rcases List.mem_cons.mp h1 with h3 | h3
          · exact absurd (h3 ▸ hk) h2
          · exact List.mem_cons_of_mem _ h3
    · rw [dictSet, if_neg hk]
      constructor
      · intro h
        rcases List.mem_cons.mp h with h1 | h1
        · exact Or.inr ⟨h1 ▸ List.mem_cons_self _ _, h1 ▸ hk⟩
        · rcases (ih hrest).mp h1 with h2 | ⟨h2, h3⟩
          · exact Or.inl h2
          · exact Or.inr ⟨List.mem_cons_of_mem x h2, h3⟩
      · intro h
        rcases h with h1 | ⟨h1, h2⟩
        · exact List.mem_cons_of_mem x ((ih hrest).mpr (Or.inl h1))
        · rcases List.mem_cons.mp h1 with h3 | h3
          · exact h3 ▸ List.mem_cons_self _ _
          · exact List.mem_cons_of_mem x ((ih hrest).mpr (Or.inr ⟨h3, h2⟩))

theorem mem_dictPop_iff {α β : Type} [DecidableEq α] (m : List (α × β))
    (k : α) (kv' : α × β) (hnd : NodupKeys m) :
    kv' ∈ dictPop m k ↔ kv' ∈ m ∧ kv'.1 ≠ k := by
  induction m with
  | nil => simp [dictPop]
  | cons x rest ih =>
    obtain ⟨hknotin, hrest⟩ := List.nodup_cons.mp hnd
    by_cases hk : x.1 = k
    · rw [dictPop, if_pos hk]
      constructor
      · intro h
        refine ⟨List.mem_cons_of_mem x h, ?_⟩
        intro hcontra
        exact (hk ▸ hknotin) (hcontra ▸ List.mem_map_of_mem Prod.fst h)
      · intro ⟨h1, h2⟩
        rcases List.mem_cons.mp h1 with h3 | h3
        · exact absurd (h3 ▸ hk) h2
        · exact h3
    · rw [dictPop, if_neg hk]
      constructor
      · intro h
        rcases List.mem_cons.mp h with h1 | h1
        · exact ⟨h1 ▸ List.mem_cons_self _ _, h1 ▸ hk⟩
        · obtain ⟨h2, h3⟩ := (ih hrest).mp h1
          exact ⟨List.mem_cons_of_mem x h2, h3⟩
      · intro ⟨h1, h2⟩
        rcases List.mem_cons.mp h1 with h3 | h3
        · exact h3 ▸ List.mem_cons_self _ _
        · exact List.mem_cons_of_mem x ((ih hrest).mpr ⟨h3, h2⟩)

/-! ## Sorting lemmas -/

theorem mem_insertSorted {α : Type} (le : α → α → Bool) (a b : α)
    (l : List α) : b ∈ insertSorted le a l ↔ b = a ∨ b ∈ l := by
  induction l with
  | nil => simp [insertSorted]
  | cons x xs ih =>
    by_cases h : le a x
    · simp [insertSorted, h]
    · simp only [insertSorted, if_neg h, List.mem_cons, ih]
      tauto

theorem perm_insertSorted {α : Type} (le : α → α → Bool) (a : α) (l : List α) :
    List.Perm (insertSorted le a l) (a :: l) := by
  induction l with
  | nil => exact List.Perm.refl _
  | cons x xs ih =>
    by_cases h : le a x
    · rw [insertSorted, if_pos h]
    · rw [insertSorted, if_neg h]
      exact (ih.cons x).trans (List.Perm.swap a x xs)

theorem perm_sortBy {α : Type} (le : α → α → Bool) (l : List α) :
    List.Perm (sortBy le l) l := by
  induction l with
  | nil => exact List.Perm.refl _
  | cons a rest ih =>
    exact (perm_insertSorted le a (sortBy le rest)).trans (ih.cons a)

theorem mem_sortBy {α : Type} (le : α → α → Bool) (a : α) (l : List α) :
    a ∈ sortBy le l ↔ a ∈ l :=
  (perm_sortBy le l).mem_iff

theorem pairwise_insertSorted {α : Type} (le : α → α → Bool) (a : α)
    (l : List α) (htot : ∀ x y, le x y = true ∨ le y x = true)
    (htrans : ∀ x y z, le x y = true → le y z = true → le x z = true)
    (hl : l.Pairwise (fun x y => le x y = true)) :
    (insertSorted le a l).Pairwise (fun x y => le x y = true) := by
  induction l with
  | nil => simp [insertSorted]
  | cons x xs ih =>
    obtain ⟨hx, hxs⟩ := List.pairwise_cons.mp hl
    by_cases h : le a x
    · rw [insertSorted, if_pos h]
      refine List.pairwise_cons.mpr ⟨?_, hl⟩
      intro y hy
      rcases List.mem_cons.mp hy with h1 | h1
      · exact h1 ▸ h
      · exact htrans a x y h (hx y h1)
    · rw [insertSorted, if_neg h]
      have hxa : le x a = true := by
        rcases htot a x with h1 | h1
        · exact absurd h1 h
        · exact h1
      refine List.pairwise_cons.mpr ⟨?_, ih hxs⟩
      intro y hy
      rcases (mem_insertSorted le a y xs).mp hy with h1 | h1
      · exact h1 ▸ hxa
      · exact hx y h1

theorem pairwise_sortBy {α : Type} (le : α → α → Bool) (l : List α)
    (htot : ∀ x y, le x y = true ∨ le y x = true)
    (htrans : ∀ x y z, le x y = true → le y z = true → le x z = true) :
    (sortBy le l).Pairwise (fun x y => le x y = true) := by
  induction l with
  | nil => simp [sortBy]
  | cons a rest ih => exact pairwise_insertSorted le a _ htot htrans ih

theorem priceDesc_total (x y : ℚ × ℚ) :
    priceDesc x y = true ∨ priceDesc y x = true := by
  rcases le_total y.1 x.1 with h | h
  · exact Or.inl (decide_eq_true h)
  · exact Or.inr (decide_eq_true h)

theorem priceDesc_trans (x y z : ℚ × ℚ) (h1 : priceDesc x y = true)
    (h2 : priceDesc y z = true) : priceDesc x z = true :=
  decide_eq_true (le_trans (of_decide_eq_true h2) (of_decide_eq_true h1))

theorem priceAsc_total (x y : ℚ × ℚ) :
    priceAsc x y = true ∨ priceAsc y x = true := by
  rcases le_total x.1 y.1 with h | h
  · exact Or.inl (decide_eq_true h)
  · exact Or.inr (decide_eq_true h)

theorem priceAsc_trans (x y z : ℚ × ℚ) (h1 : priceAsc x y = true)
    (h2 : priceAsc y z = true) : priceAsc x z = true :=
  decide_eq_true (le_trans (of_decide_eq_true h1) (of_decide_eq_true h2))

/-! ## Positive-quantity preservation (L2) -/

theorem mem_dictSet_weak {α β : Type} [DecidableEq α] (m : List (α × β))
    (k : α) (v : β) (kv' : α × β) (h : kv' ∈ dictSet m k v) :
    kv' ∈ m ∨ kv' = (k, v) := by
  induction m with
  | nil =>
    rw [dictSet] at h
    exact Or.inr (List.mem_singleton.mp h)
  | cons x rest ih =>
    by_cases hk : x.1 = k
    · rw [dictSet, if_pos hk] at h
      rcases List.mem_cons.mp h with h1 | h1
      · exact Or.inr h1
      · exact Or.inl (List.mem_cons_of_mem x h1)
    · rw [dictSet, if_neg hk] at h
      rcases List.mem_cons.mp h with h1 | h1
      · exact Or.inl (h1 ▸ List.mem_cons_self _ _)
      · rcases ih h1 with h2 | h2
        · exact Or.inl (List.mem_cons_of_mem x h2)
        · exact Or.inr h2

theorem mem_dictPop_weak {α β : Type} [DecidableEq α] (m : List (α × β))
    (k : α) (kv' : α × β) (h : kv' ∈ dictPop m k) : kv' ∈ m := by
  induction m with
  | nil => simp [dictPop] at h
  | cons x rest ih =>
    by_cases hk : x.1 = k
    · rw [dictPop, if_pos hk] at h
      exact List.mem_cons_of_mem x h
    · rw [dictPop, if_neg hk] at h
      rcases List.mem_cons.mp h with h1 | h1
      · exact h1 ▸ List.mem_cons_self _ _
      · exact List.mem_cons_of_mem x (ih h1)

theorem posVals_applyLevel (m : List (ℚ × ℚ)) (pq : ℚ × ℚ)
    (hm : PosVals m) (hq : 0 ≤ pq.2) : PosVals (applyLevel m pq) := by
  unfold applyLevel
  by_cases h0 : pq.2 = 0
  · rw [if_pos h0]
    exact fun x hx => hm x (mem_dictPop_weak m pq.1 x hx)
  · rw [if_neg h0]
    intro x hx
    rcases mem_dictSet_weak m pq.1 pq.2 x hx with h1 | h1
    · exact hm x h1
    · rw [h1]
      exact lt_of_le_of_ne hq (Ne.symm h0)

theorem posVals_foldl_applyLevel (l : List (ℚ × ℚ)) :
    ∀ m : List (ℚ × ℚ), PosVals m → (∀ pq ∈ l, 0 ≤ pq.2) →
    PosVals (l.foldl applyLevel m) := by
  induction l with
  | nil =>
    intro m hm _
    exact hm
  | cons pq rest ih =>
    intro m hm hl
    rw [List.foldl_cons]
    exact ih (applyLevel m pq)
      (posVals_applyLevel m pq hm (hl pq (List.mem_cons_self _ _)))
      (fun x hx => hl x (List.mem_cons_of_mem pq hx))

theorem posVals_foldl_dictSet (l : List (ℚ × ℚ)) :
    ∀ m : List (ℚ × ℚ), PosVals m → (∀ pq ∈ l, 0 < pq.2) →
    PosVals (l.foldl (fun m pq => dictSet m pq.1 pq.2) m) := by
  induction l with
  | nil =>
    intro m hm _
    exact hm
  | cons pq rest ih =>
    intro m hm hl
    rw [List.foldl_cons]
    refine ih (dictSet m pq.1 pq.2) ?_ (fun x hx => hl x (List.mem_cons_of_mem pq hx))
    intro x hx
    rcases mem_dictSet_weak m pq.1 pq.2 x hx with h1 | h1
    · exact hm x h1
    · rw [h1]
      exact hl pq (List.mem_cons_self _ _)

theorem posVals_loadSnapshot (snap : L2Snapshot) :
    PosVals (loadSnapshot snap).bids ∧ PosVals (loadSnapshot snap).asks := by
  constructor <;>
  · refine posVals_foldl_dictSet _ [] (by intro x hx; simp at hx) ?_
    intro pq hpq
    have := List.of_mem_filter hpq
    exact of_decide_eq_true this

/-- In the applied case of the live loop, the keys and values of the book
maps stay positive; package the `emitState` consequences. -/
theorem emitState_props (symbol : String) (topN : ℕ) (emitFull : Bool)
    (nowMs : ℕ) (s : L2State) (ts : Option ℕ) (bs : BookState)
    (hb : PosVals s.bids) (ha : PosVals s.asks)
    (h : emitState symbol topN emitFull nowMs s ts = some bs) :
    EmittedOK bs := by
  have hbsub : ∀ x ∈ (if emitFull then sortBy priceDesc s.bids
      else (sortBy priceDesc s.bids).take topN), x ∈ s.bids := by
    intro x hx
    by_cases hf : emitFull
    · rw [if_pos hf] at hx
      exact (mem_sortBy priceDesc x s.bids).mp hx
    · rw [if_neg hf] at hx
      exact (mem_sortBy priceDesc x s.bids).mp (List.take_subset _ _ hx)
  have hasub : ∀ x ∈ (if emitFull then sortBy priceAsc s.asks
      else (sortBy priceAsc s.asks).take topN), x ∈ s.asks := by
    intro x hx
    by_cases hf : emitFull
    · rw [if_pos hf] at hx
      exact (mem_sortBy priceAsc x s.asks).mp hx
    · rw [if_neg hf] at hx
      exact (mem_sortBy priceAsc x s.asks).mp (List.take_subset _ _ hx)
  have hbpw : (if emitFull then sortBy priceDesc s.bids
      else (sortBy priceDesc s.bids).take topN).Pairwise
        (fun x y => priceDesc x y = true) := by
    by_cases hf : emitFull
    · rw [if_pos hf]
      exact pairwise_sortBy priceDesc s.bids priceDesc_total priceDesc_trans
    · rw [if_neg hf]
      exact List.Pairwise.sublist (List.take_sublist _ _)
        (pairwise_sortBy priceDesc s.bids priceDesc_total priceDesc_trans)
  have hapw : (if emitFull then sortBy priceAsc s.asks
      else (sortBy priceAsc s.asks).take topN).Pairwise
        (fun x y => priceAsc x y = true) := by
    by_cases hf : emitFull
    · rw [if_pos hf]
      exact pairwise_sortBy priceAsc s.asks priceAsc_total priceAsc_trans
    · rw [if_neg hf]
      exact List.Pairwise.sublist (List.take_sublist _ _)
        (pairwise_sortBy priceAsc s.asks priceAsc_total priceAsc_trans)
  unfold emitState at h
  split at h
  · cases h
  · cases h
  case _ b0 brest a0 arest hbeq haeq =>
    cases h
    refine ⟨?_, ?_, ?_, ?_, ⟨b0.2, ?_⟩, ⟨a0.2, ?_⟩⟩
    · intro pq hpq
      exact hb pq (hbsub pq (hbeq ▸ hpq))
    · intro pq hpq
      exact ha pq (hasub pq (haeq ▸ hpq))
    · exact (hbeq ▸ hbpw).imp (fun hxy => of_decide_eq_true hxy)
    · exact (haeq ▸ hapw).imp (fun hxy => of_decide_eq_true hxy)
    · rfl
    · rfl

/-- An `ok` result of the live-loop step is either the skip of a stale delta
or the application of a bridging delta with its emission. -/
theorem liveStep_ok_cases (symbol : String) (topN : ℕ) (emitFull : Bool)
    (nowMs : ℕ) (s : L2State) (d : Delta) (s' : L2State)
    (out : Option BookState)
    (h : liveStep symbol topN emitFull nowMs s d = .ok (s', out)) :
    (s' = s ∧ out = none) ∨
    (s' = { applyEvent s d with bookUpdateId := d.u } ∧
     out = emitState symbol topN emitFull nowMs s' d.E) := by
  unfold liveStep at h
  by_cases h1 : d.u ≤ s.bookUpdateId
  · rw [if_pos h1] at h
    simp only [Except.ok.injEq, Prod.mk.injEq] at h
    exact Or.inl ⟨h.1.symm, h.2.symm⟩
  · rw [if_neg h1] at h
    by_cases h2 : s.bookUpdateId + 1 < d.U
    · rw [if_pos h2] at h
      cases h
    · rw [if_neg h2] at h
      simp only [Except.ok.injEq, Prod.mk.injEq] at h
      refine Or.inr ⟨h.1.symm, ?_⟩
      rw [← h.1]
      exact h.2.symm

/-- Every `BookState` collected by the live loop from a state with positive
book quantities, under deltas with non-negative quantities, satisfies
`EmittedOK`. -/
theorem runLive_emitted_ok (symbol : String) (topN : ℕ) (emitFull : Bool)
    (nowMs : ℕ) (ds : List Delta) :
    ∀ (s final : L2State) (emitted : List BookState),
      PosVals s.bids → PosVals s.asks →
      (∀ d ∈ ds, (∀ pq ∈ d.b, 0 ≤ pq.2) ∧ (∀ pq ∈ d.a, 0 ≤ pq.2)) →
      runLive symbol topN emitFull nowMs s ds = .ok (final, emitted) →
      ∀ bs ∈ emitted, EmittedOK bs := by
  induction ds with
  | nil =>
    intro s final emitted hb ha hq hrun bs hbs
    unfold runLive at hrun
    simp only [Except.ok.injEq, Prod.mk.injEq] at hrun
    rw [← hrun.2] at hbs
    simp at hbs
  | cons d rest ih =>
    intro s final emitted hb ha hq hrun bs hbs
    unfold runLive at hrun
    cases hstep : liveStep symbol topN emitFull nowMs s d with
    | error e =>
      rw [hstep] at hrun
      cases hrun
    | ok pr =>
      obtain ⟨s', out⟩ := pr
      rw [hstep] at hrun
      dsimp only at hrun
      cases hrest : runLive symbol topN emitFull nowMs s' rest with
      | error e =>
        rw [hrest] at hrun
        cases hrun
      | ok pr2 =>
        obtain ⟨s'', outs⟩ := pr2
        rw [hrest] at hrun
        simp only [Except.ok.injEq, Prod.mk.injEq] at hrun
        have hbposa : PosVals s'.bids ∧ PosVals s'.asks := by
          rcases liveStep_ok_cases symbol topN emitFull nowMs s d s' out hstep
            with ⟨hs, _⟩ | ⟨hs, _⟩
          · rw [hs]
            exact ⟨hb, ha⟩
          · rw [hs]
            refine ⟨?_, ?_⟩
            · exact posVals_foldl_applyLevel d.b s.bids hb
                (hq d (List.mem_cons_self _ _)).1
            · exact posVals_foldl_applyLevel d.a s.asks ha
                (hq d (List.mem_cons_self _ _)).2
        rw [← hrun.2] at hbs
        rcases List.mem_append.mp hbs with hmem | hmem
        · rcases liveStep_ok_cases symbol topN emitFull nowMs s d s' out hstep
            with ⟨_, hout⟩ | ⟨_, hout⟩
          · rw [hout] at hmem
            simp at hmem
          · rcases hemit : emitState symbol topN emitFull nowMs s' d.E with _ | bs0
            · rw [hout, hemit] at hmem
              simp at hmem
            · rw [hout, hemit] at hmem
              simp only [Option.toList_some, List.mem_singleton] at hmem
              rw [hmem]
              exact emitState_props symbol topN emitFull nowMs s' d.E bs0
                hbposa.1 hbposa.2 hemit
        · exact ih s' s'' outs hbposa.1 hbposa.2
            (fun d' hd' => hq d' (List.mem_cons_of_mem d hd')) hrest bs hmem

/-! ## De-duplication lemmas -/

theorem mem_dedupGo_subset (rs : List Row) (seen : List (ℕ × String)) (r : Row) :
    r ∈ dedupGo seen rs → r ∈ rs := by
  induction rs generalizing seen with
  | nil => intro h; simp [dedupGo] at h
  | cons x rest ih =>
    intro h
    by_cases hx : rowKey x ∈ seen
    · rw [dedupGo, if_pos hx] at h
      exact List.mem_cons_of_mem x (ih seen h)
    · rw [dedupGo, if_neg hx] at h
      rcases List.mem_cons.mp h with h1 | h1
      · exact h1 ▸ List.mem_cons_self _ _
      · exact List.mem_cons_of_mem x (ih _ h1)

theorem nodup_keys_dedupGo (rs : List Row) (seen : List (ℕ × String)) :
    ((dedupGo seen rs).map rowKey).Nodup ∧
    ∀ k ∈ (dedupGo seen rs).map rowKey, k ∉ seen := by
  induction rs generalizing seen with
  | nil => simp [dedupGo]
  | cons x rest ih =>
    by_cases hx : rowKey x ∈ seen
    · rw [dedupGo, if_pos hx]; exact ih seen
    · rw [dedupGo, if_neg hx]
      obtain ⟨ihn, ihs⟩ := ih (rowKey x :: seen)
      rw [List.map_cons]
      constructor
      · refine List.nodup_cons.mpr ⟨?_, ihn⟩
        intro hmem
        exact (ihs _ hmem) (List.mem_cons_self _ _)
      · intro k hk
        rcases List.mem_cons.mp hk with h1 | h1
        · exact h1 ▸ hx
        · intro hks
          exact (ihs k h1) (List.mem_cons_of_mem _ hks)

theorem key_covered_dedupGo (rs : List Row) (seen : List (ℕ × String)) (r : Row) :
    r ∈ rs → rowKey r ∈ seen ∨ ∃ r' ∈ dedupGo seen rs, rowKey r' = rowKey r := by
  induction rs generalizing seen with
  | nil => intro h; simp at h
  | cons x rest ih =>
    intro h
    by_cases hx : rowKey x ∈ seen
    · rw [dedupGo, if_pos hx]
      rcases List.mem_cons.mp h with h1 | h1
      · exact Or.inl (by rw [h1]; exact hx)
      · exact ih seen h1
    · rw [dedupGo, if_neg hx]
      rcases List.mem_cons.mp h with h1 | h1
      · exact Or.inr ⟨x, List.mem_cons_self _ _, by rw [h1]⟩
      · rcases ih (rowKey x :: seen) h1 with h2 | ⟨r', hr', hkey⟩
        · rcases List.mem_cons.mp h2 with h3 | h3
          · exact Or.inr ⟨x, List.mem_cons_self _ _, h3.symm⟩
          · exact Or.inl h3
        · exact Or.inr ⟨r', List.mem_cons_of_mem x hr', hkey⟩

/-! ## L3 aggregation lemmas -/

theorem getLevelQty_eq (s : L3State) (side : Side) (p : ℚ) :
    getLevelQty s side p = dictGet (levelsOf s side) p := by
  cases side <;> rfl

theorem levelsOf_orders (s : L3State) (X : List (String × L3Order))
    (side : Side) : levelsOf { s with orders := X } side = levelsOf s side := by
  cases side <;> rfl

theorem orders_setLevelQty (s : L3State) (side : Side) (p v : ℚ) :
    (setLevelQty s side p v).orders = s.orders := by
  cases side <;> rfl

theorem orders_popLevel (s : L3State) (side : Side) (p : ℚ) :
    (popLevel s side p).orders = s.orders := by
  cases side <;> rfl

theorem levelsOf_setLevelQty (s : L3State) (side : Side) (p v : ℚ)
    (side' : Side) :
    levelsOf (setLevelQty s side p v) side' =
      if side' = side then dictSet (levelsOf s side) p v
      else levelsOf s side' := by
  cases side <;> cases side' <;> simp [levelsOf, setLevelQty]

theorem levelsOf_popLevel (s : L3State) (side : Side) (p : ℚ) (side' : Side) :
    levelsOf (popLevel s side p) side' =
      if side' = side then dictPop (levelsOf s side) p
      else levelsOf s side' := by
  cases side <;> cases side' <;> simp [levelsOf, popLevel]

theorem sumAt_cons (kv : String × L3Order) (rest : List (String × L3Order))
    (side : Side) (p : ℚ) :
    sumAt (kv :: rest) side p = contrib kv.2 side p + sumAt rest side p := rfl

theorem sumAt_nonneg (m : List (String × L3Order)) (side : Side) (p : ℚ)
    (hsz : ∀ kv ∈ m, 0 ≤ kv.2.size) : 0 ≤ sumAt m side p := by
  induction m with
  | nil => exact le_refl 0
  | cons kv rest ih =>
    rw [sumAt_cons]
    have h1 : 0 ≤ contrib kv.2 side p := by
      unfold contrib
      by_cases hc : kv.2.side = side ∧ kv.2.price = p
      · rw [if_pos hc]
        exact hsz kv (List.mem_cons_self _ _)
      · rw [if_neg hc]
    exact add_nonneg h1 (ih (fun x hx => hsz x (List.mem_cons_of_mem kv hx)))

theorem sumAt_eq_zero (m : List (String × L3Order)) (side : Side) (p : ℚ)
    (h : ∀ kv ∈ m, ¬(kv.2.side = side ∧ kv.2.price = p)) :
    sumAt m side p = 0 := by
  induction m with
  | nil => rfl
  | cons kv rest ih =>
    rw [sumAt_cons]
    rw [contrib, if_neg (h kv (List.mem_cons_self _ _))]
    rw [zero_add]
    exact ih (fun x hx => h x (List.mem_cons_of_mem kv hx))

theorem sumAt_dictSet (m : List (String × L3Order)) (oid : String)
    (ord ord' : L3Order) (hget : dictGet m oid = some ord) (side : Side)
    (p : ℚ) :
    sumAt (dictSet m oid ord') side p =
      sumAt m side p - contrib ord side p + contrib ord' side p := by
  induction m with
  | nil => simp [dictGet] at hget
  | cons kv rest ih =>
    by_cases hk : kv.1 = oid
    · rw [dictGet, if_pos hk] at hget
      have hv : kv.2 = ord := Option.some.inj hget
      rw [dictSet, if_pos hk, sumAt_cons, sumAt_cons, hv]
      ring
    · rw [dictGet, if_neg hk] at hget
      rw [dictSet, if_neg hk, sumAt_cons, sumAt_cons, ih hget]
      ring

theorem sumAt_dictPop (m : List (String × L3Order)) (oid : String)
    (ord : L3Order) (hget : dictGet m oid = some ord) (side : Side) (p : ℚ) :
    sumAt (dictPop m oid) side p = sumAt m side p - contrib ord side p := by
  induction m with
  | nil => simp [dictGet] at hget
  | cons kv rest ih =>
    by_cases hk : kv.1 = oid
    · rw [dictGet, if_pos hk] at hget
      have hv : kv.2 = ord := Option.some.inj hget
      rw [dictPop, if_pos hk, sumAt_cons, hv]
      ring
    · rw [dictGet, if_neg hk] at hget
      rw [dictPop, if_neg hk, sumAt_cons, sumAt_cons, ih hget]
      ring

theorem getLevelQty_set_self (s : L3State) (side : Side) (p v : ℚ) :
    getLevelQty (setLevelQty s side p v) side p = some v := by
  rw [getLevelQty_eq, levelsOf_setLevelQty, if_pos rfl]
  exact dictGet_dictSet_self _ _ _

theorem getLevelQty_set_ne (s : L3State) (side : Side) (p v : ℚ)
    (side' : Side) (p' : ℚ) (h : ¬(side' = side ∧ p' = p)) :
    getLevelQty (setLevelQty s side p v) side' p' = getLevelQty s side' p' := by
  rw [getLevelQty_eq, levelsOf_setLevelQty, getLevelQty_eq]
  by_cases hs : side' = side
  · rw [if_pos hs, hs]
    exact dictGet_dictSet_ne _ _ _ _ (fun hp => h ⟨hs, hp⟩)
  · rw [if_neg hs]

theorem getLevelQty_pop_self (s : L3State) (side : Side) (p : ℚ)
    (hnd : NodupKeys (levelsOf s side)) :
    getLevelQty (popLevel s side p) side p = none := by
  rw [getLevelQty_eq, levelsOf_popLevel, if_pos rfl]
  exact dictGet_dictPop_self _ _ hnd

theorem getLevelQty_pop_ne (s : L3State) (side : Side) (p : ℚ)
    (side' : Side) (p' : ℚ) (h : ¬(side' = side ∧ p' = p)) :
    getLevelQty (popLevel s side p) side' p' = getLevelQty s side' p' := by
  rw [getLevelQty_eq, levelsOf_popLevel, getLevelQty_eq]
  by_cases hs : side' = side
  · rw [if_pos hs, hs]
    exact dictGet_dictPop_ne _ _ _ (fun hp => h ⟨hs, hp⟩)
  · rw [if_neg hs]

theorem getLevelQty_orders (s : L3State) (X : List (String × L3Order))
    (side : Side) (p : ℚ) :
    getLevelQty { s with orders := X } side p = getLevelQty s side p := by
  cases side <;> rfl

/-- Master preservation lemma for updates that change the order map so that
only the aggregated sum at one `(side, price)` slot moves, and then store
the new (positive) sum at that slot. -/
theorem WF_set_update (s : L3State) (O1 : List (String × L3Order)) (sd : Side)
    (pr v : ℚ) (hwf : L3WF s)
    (hnd1 : NodupKeys O1)
    (hsz1 : ∀ kv ∈ O1, 0 ≤ kv.2.size)
    (hmem1 : ∀ kv ∈ O1, ¬(kv.2.side = sd ∧ kv.2.price = pr) → kv ∈ s.orders)
    (hsame : ∀ side p, ¬(side = sd ∧ p = pr) →
      sumAt O1 side p = sumAt s.orders side p)
    (hv : v = sumAt O1 sd pr) (hvpos : 0 < v) :
    L3WF (setLevelQty { s with orders := O1 } sd pr v) := by
  obtain ⟨hnd, hndl, hsz, hpos, hagg, hagg3⟩ := hwf
  have horders : (setLevelQty { s with orders := O1 } sd pr v).orders = O1 :=
    orders_setLevelQty _ _ _ _
  have hlev : ∀ side, levelsOf (setLevelQty { s with orders := O1 } sd pr v) side =
      if side = sd then dictSet (levelsOf s sd) pr v else levelsOf s side := by
    intro side
    rw [levelsOf_setLevelQty, levelsOf_orders]
    by_cases hs : side = sd
    · rw [if_pos hs, if_pos hs, levelsOf_orders]
    · rw [if_neg hs, if_neg hs]
      exact levelsOf_orders _ _ _
  have hget_upd : ∀ side p, getLevelQty (setLevelQty { s with orders := O1 } sd pr v) side p =
      if side = sd ∧ p = pr then some v else getLevelQty s side p := by
    intro side p
    by_cases hc : side = sd ∧ p = pr
    · rw [if_pos hc, hc.1, hc.2]
      exact getLevelQty_set_self _ _ _ _
    · rw [if_neg hc, getLevelQty_set_ne _ _ _ _ _ _ hc, getLevelQty_orders]
  refine ⟨?_, ?_, ?_, ?_, ?_, ?_⟩
  · rw [horders]; exact hnd1
  · intro side
    rw [hlev side]
    by_cases hs : side = sd
    · rw [if_pos hs]
      exact nodupKeys_dictSet _ _ _ (hndl sd)
    · rw [if_neg hs]
      exact hndl side
  · rw [horders]; exact hsz1
  · intro side pq hpq
    rw [hlev side] at hpq
    by_cases hs : side = sd
    · rw [if_pos hs] at hpq
      rcases (mem_dictSet_iff _ _ _ _ (hndl sd)).mp hpq with h1 | ⟨h1, _⟩
      · rw [h1]; exact hvpos
      · exact hpos sd pq h1
    · rw [if_neg hs] at hpq
      exact hpos side pq hpq
  · intro side pq hpq
    rw [horders, hlev side] at *
    by_cases hs : side = sd
    · subst hs
      rw [if_pos rfl] at hpq
      rcases (mem_dictSet_iff _ _ _ _ (hndl side)).mp hpq with h1 | ⟨h1, hne⟩
      · rw [h1]
        simpa using hv
      · have := hagg side pq h1
        rw [this]
        exact (hsame side pq.1 (fun hc => hne hc.2)).symm
    · rw [if_neg hs] at hpq
      have := hagg side pq hpq
      rw [this]
      exact (hsame side pq.1 (fun hc => hs hc.1)).symm
  · intro kv hkv
    rw [horders] at hkv
    rw [horders]
    rw [hget_upd]
    by_cases hc : kv.2.side = sd ∧ kv.2.price = pr
    · rw [if_pos hc, hc.1, hc.2]
      simpa using hv
    · rw [if_neg hc]
      have hmem := hmem1 kv hkv hc
      have := hagg3 kv hmem
      rw [this]
      exact (hsame kv.2.side kv.2.price hc).symm

/-- Master preservation lemma for updates that empty the aggregated sum at
one `(side, price)` slot and delete that level. -/
theorem WF_pop_update (s : L3State) (O1 : List (String × L3Order)) (sd : Side)
    (pr : ℚ) (hwf : L3WF s)
    (hnd1 : NodupKeys O1)
    (hsz1 : ∀ kv ∈ O1, 0 ≤ kv.2.size)
    (hmem1 : ∀ kv ∈ O1, ¬(kv.2.side = sd ∧ kv.2.price = pr) → kv ∈ s.orders)
    (hsame : ∀ side p, ¬(side = sd ∧ p = pr) →
      sumAt O1 side p = sumAt s.orders side p)
    (hzero : sumAt O1 sd pr = 0) :
    L3WF (popLevel { s with orders := O1 } sd pr) := by
  obtain ⟨hnd, hndl, hsz, hpos, hagg, hagg3⟩ := hwf
  have horders : (popLevel { s with orders := O1 } sd pr).orders = O1 :=
    orders_popLevel _ _ _
  have hlev : ∀ side, levelsOf (popLevel { s with orders := O1 } sd pr) side =
      if side = sd then dictPop (levelsOf s sd) pr else levelsOf s side := by
    intro side
    rw [levelsOf_popLevel, levelsOf_orders]
    by_cases hs : side = sd
    · rw [if_pos hs, if_pos hs, levelsOf_orders]
    · rw [if_neg hs, if_neg hs]
      exact levelsOf_orders _ _ _
  have hget_upd : ∀ side p, getLevelQty (popLevel { s with orders := O1 } sd pr) side p =
      if side = sd ∧ p = pr then none else getLevelQty s side p := by
    intro side p
    by_cases hc : side = sd ∧ p = pr
    · rw [if_pos hc, hc.1, hc.2]
      refine Eq.trans ?_ (dictGet_dictPop_self (levelsOf { s with orders := O1 } sd) pr ?_)
      · rw [getLevelQty_eq, levelsOf_popLevel, if_pos rfl]
      · rw [levelsOf_orders]
        exact hndl sd
    · rw [if_neg hc, getLevelQty_pop_ne _ _ _ _ _ hc, getLevelQty_orders]
  refine ⟨?_, ?_, ?_, ?_, ?_, ?_⟩
  · rw [horders]; exact hnd1
  · intro side
    rw [hlev side]
    by_cases hs : side = sd
    · rw [if_pos hs]
      exact nodupKeys_dictPop _ _ (hndl sd)
    · rw [if_neg hs]
      exact hndl side
  · rw [horders]; exact hsz1
  · intro side pq hpq
    rw [hlev side] at hpq
    by_cases hs : side = sd
    · rw [if_pos hs] at hpq
      exact hpos sd pq ((mem_dictPop_iff _ _ _ (hndl sd)).mp hpq).1
    · rw [if_neg hs] at hpq
      exact hpos side pq hpq
  · intro side pq hpq
    rw [horders]
    rw [hlev side] at hpq
    by_cases hs : side = sd
    · subst hs
      rw [if_pos rfl] at hpq
      obtain ⟨h1, hne⟩ := (mem_dictPop_iff _ _ _ (hndl side)).mp hpq
      have := hagg side pq h1
      rw [this]
      exact (hsame side pq.1 (fun hc => hne hc.2)).symm
    · rw [if_neg hs] at hpq
      have := hagg side pq hpq
      rw [this]
      exact (hsame side pq.1 (fun hc => hs hc.1)).symm
  · intro kv hkv
    rw [horders] at hkv
    rw [horders]
    rw [hget_upd]
    by_cases hc : kv.2.side = sd ∧ kv.2.price = pr
    · rw [if_pos hc, hc.1, hc.2]
      simpa using hzero.symm
    · rw [if_neg hc]
      have hmem := hmem1 kv hkv hc
      have := hagg3 kv hmem
      rw [this]
      exact (hsame kv.2.side kv.2.price hc).symm

/-- Reduction of `_apply_message` on a `match` that only partially consumes
the maker order (`trade_size < prev_size` branch). -/
theorem applyMessage_match_partial (s : L3State) (oid : String) (ord : L3Order)
    (t : ℚ) (hid : oid ≠ "") (hget : dictGet s.orders oid = some ord)
    (hlt : ¬ ord.size ≤ t) :
    applyMessage s (.matchMsg oid t) =
      setLevelQty
        { s with orders := dictSet s.orders oid ⟨ord.side, ord.price, ord.size - t⟩ }
        ord.side ord.price
        (max 0 ((getLevelQty
          { s with orders := dictSet s.orders oid ⟨ord.side, ord.price, ord.size - t⟩ }
          ord.side ord.price).getD 0 - t)) := by
  simp only [applyMessage, if_neg hid, hget]
  rw [if_neg hlt]

/-- Reduction of `_apply_message` on a `match` that consumes the maker order
entirely (`trade_size >= prev_size` branch). -/
theorem applyMessage_match_full (s : L3State) (oid : String) (ord : L3Order)
    (t : ℚ) (hid : oid ≠ "") (hget : dictGet s.orders oid = some ord)
    (hge : ord.size ≤ t) :
    applyMessage s (.matchMsg oid t) = removeOrder s oid := by
  simp only [applyMessage, if_neg hid, hget]
  rw [if_pos hge]

/-- A partial `match` preserves the structural invariant and stores the
reduced order back under its id. -/
theorem match_partial_WF (s : L3State) (oid : String) (ord : L3Order) (t : ℚ)
    (hwf : L3WF s) (hid : oid ≠ "") (hget : dictGet s.orders oid = some ord)
    (_ht : 0 < t) (hlt : t < ord.size) :
    L3WF (applyMessage s (.matchMsg oid t)) ∧
    (applyMessage s (.matchMsg oid t)).orders =
      dictSet s.orders oid ⟨ord.side, ord.price, ord.size - t⟩ := by
  have hstep := applyMessage_match_partial s oid ord t hid hget (not_le.mpr hlt)
  have hkv : (oid, ord) ∈ s.orders := mem_of_dictGet _ _ _ hget
  have hL : (getLevelQty s ord.side ord.price).getD 0 =
      sumAt s.orders ord.side ord.price := hwf.2.2.2.2.2 (oid, ord) hkv
  have hcontrib : contrib ord ord.side ord.price = ord.size := by
    rw [contrib, if_pos ⟨rfl, rfl⟩]
  have hcontrib' :
      contrib ⟨ord.side, ord.price, ord.size - t⟩ ord.side ord.price =
        ord.size - t := by
    rw [contrib, if_pos ⟨rfl, rfl⟩]
  have hpop := sumAt_dictPop s.orders oid ord hget ord.side ord.price
  have hpopnn : 0 ≤ sumAt (dictPop s.orders oid) ord.side ord.price :=
    sumAt_nonneg _ _ _ (fun kv h => hwf.2.2.1 kv (mem_dictPop_weak _ _ _ h))
  have hSsum : sumAt (dictSet s.orders oid ⟨ord.side, ord.price, ord.size - t⟩)
      ord.side ord.price = sumAt s.orders ord.side ord.price - t := by
    rw [sumAt_dictSet s.orders oid ord _ hget, hcontrib, hcontrib']
    ring
  have hStpos : 0 < sumAt s.orders ord.side ord.price - t := by
    rw [hcontrib] at hpop
    have := hpop
    nlinarith [hpopnn, hlt]
  have hmax : max 0 ((getLevelQty s ord.side ord.price).getD 0 - t) =
      sumAt s.orders ord.side ord.price - t := by
    rw [hL, max_eq_right (le_of_lt hStpos)]
  have hnd1 : NodupKeys (dictSet s.orders oid ⟨ord.side, ord.price, ord.size - t⟩) :=
    nodupKeys_dictSet _ _ _ hwf.1
  have hsz1 : ∀ kv ∈ dictSet s.orders oid ⟨ord.side, ord.price, ord.size - t⟩,
      0 ≤ kv.2.size := by
    intro kv h
    rcases (mem_dictSet_iff _ _ _ _ hwf.1).mp h with h1 | ⟨h1, _⟩
    · rw [h1]
      simp only
      linarith
    · exact hwf.2.2.1 kv h1
  have hmem1 : ∀ kv ∈ dictSet s.orders oid ⟨ord.side, ord.price, ord.size - t⟩,
      ¬(kv.2.side = ord.side ∧ kv.2.price = ord.price) → kv ∈ s.orders := by
    intro kv h hc
    rcases (mem_dictSet_iff _ _ _ _ hwf.1).mp h with h1 | ⟨h1, _⟩
    · exact absurd (by rw [h1]; exact ⟨rfl, rfl⟩) hc
    · exact h1
  have hsame : ∀ side p, ¬(side = ord.side ∧ p = ord.price) →
      sumAt (dictSet s.orders oid ⟨ord.side, ord.price, ord.size - t⟩) side p =
        sumAt s.orders side p := by
    intro side p hc
    rw [sumAt_dictSet s.orders oid ord _ hget]
    have hc1 : contrib ord side p = 0 := by
      rw [contrib, if_neg]
      rintro ⟨h1, h2⟩
      exact hc ⟨h1.symm, h2.symm⟩
    have hc2 : contrib ⟨ord.side, ord.price, ord.size - t⟩ side p = 0 := by
      rw [contrib, if_neg]
      rintro ⟨h1, h2⟩
      exact hc ⟨h1.symm, h2.symm⟩
    rw [hc1, hc2]
    ring
  constructor
  · rw [hstep]
    refine WF_set_update s _ ord.side ord.price _ hwf hnd1 hsz1 hmem1 hsame ?_ ?_
    · rw [getLevelQty_orders, hmax, hSsum]
    · rw [getLevelQty_orders, hmax]
      exact hStpos
  · rw [hstep, orders_setLevelQty]

/-- Removing an order preserves the structural invariant. -/
theorem removeOrder_WF (s : L3State) (oid : String) (ord : L3Order)
    (hwf : L3WF s) (hget : dictGet s.orders oid = some ord) :
    L3WF (removeOrder s oid) ∧
    (removeOrder s oid).orders = dictPop s.orders oid := by
  have hkv : (oid, ord) ∈ s.orders := mem_of_dictGet _ _ _ hget
  have hL : (getLevelQty s ord.side ord.price).getD 0 =
      sumAt s.orders ord.side ord.price := hwf.2.2.2.2.2 (oid, ord) hkv
  have hcontrib : contrib ord ord.side ord.price = ord.size := by
    rw [contrib, if_pos ⟨rfl, rfl⟩]
  have hpop := sumAt_dictPop s.orders oid ord hget ord.side ord.price
  rw [hcontrib] at hpop
  have hpopnn : 0 ≤ sumAt (dictPop s.orders oid) ord.side ord.price :=
    sumAt_nonneg _ _ _ (fun kv h => hwf.2.2.1 kv (mem_dictPop_weak _ _ _ h))
  have hnd1 : NodupKeys (dictPop s.orders oid) := nodupKeys_dictPop _ _ hwf.1
  have hsz1 : ∀ kv ∈ dictPop s.orders oid, 0 ≤ kv.2.size :=
    fun kv h => hwf.2.2.1 kv (mem_dictPop_weak _ _ _ h)
  have hmem1 : ∀ kv ∈ dictPop s.orders oid,
      ¬(kv.2.side = ord.side ∧ kv.2.price = ord.price) → kv ∈ s.orders :=
    fun kv h _ => mem_dictPop_weak _ _ _ h
  have hsame : ∀ side p, ¬(side = ord.side ∧ p = ord.price) →
      sumAt (dictPop s.orders oid) side p = sumAt s.orders side p := by
    intro side p hc
    rw [sumAt_dictPop s.orders oid ord hget side p]
    have hc1 : contrib ord side p = 0 := by
      rw [contrib, if_neg]
      rintro ⟨h1, h2⟩
      exact hc ⟨h1.symm, h2.symm⟩
    rw [hc1]
    ring
  have hred : removeOrder s oid =
      if (getLevelQty s ord.side ord.price).getD 0 - ord.size ≤ 0
      then popLevel { s with orders := dictPop s.orders oid } ord.side ord.price
      else setLevelQty { s with orders := dictPop s.orders oid } ord.side
        ord.price ((getLevelQty s ord.side ord.price).getD 0 - ord.size) := by
    simp only [removeOrder, hget]
    rw [getLevelQty_orders]
  rw [hred]
  by_cases hns : (getLevelQty s ord.side ord.price).getD 0 - ord.size ≤ 0
  · rw [if_pos hns]
    rw [hL] at hns
    have hzero : sumAt (dictPop s.orders oid) ord.side ord.price = 0 := by
      linarith
    exact ⟨WF_pop_update s _ ord.side ord.price hwf hnd1 hsz1 hmem1 hsame hzero,
      orders_popLevel _ _ _⟩
  · rw [if_neg hns]
    rw [hL] at hns
    refine ⟨WF_set_update s _ ord.side ord.price _ hwf hnd1 hsz1 hmem1 hsame ?_ ?_,
      orders_setLevelQty _ _ _ _⟩
    · rw [hL, hpop]
    · rw [hL]
      linarith

/-- C3's stated invariant follows from the structural invariant. -/
theorem levelAgg_of_WF (s : L3State) (hwf : L3WF s) : LevelAgg s := by
  obtain ⟨hnd, hndl, hsz, hpos, hagg, hagg3⟩ := hwf
  intro side p
  rw [getLevelQty_eq]
  cases hq : dictGet (levelsOf s side) p with
  | some v =>
    have hmem : (p, v) ∈ levelsOf s side := mem_of_dictGet _ _ _ hq
    have hv : v = sumAt s.orders side p := hagg side (p, v) hmem
    have hvpos : (0 : ℚ) < v := hpos side (p, v) hmem
    rw [if_neg (by rw [← hv]; exact ne_of_gt hvpos), hv]
  | none =>
    by_cases hex : ∃ kv ∈ s.orders, kv.2.side = side ∧ kv.2.price = p
    · obtain ⟨kv, hkv, hside, hprice⟩ := hex
      have h6 := hagg3 kv hkv
      rw [hside, hprice, getLevelQty_eq, hq] at h6
      simp only [Option.getD_none] at h6
      rw [if_pos h6.symm]
    · push_neg at hex
      rw [if_pos (sumAt_eq_zero s.orders side p
        (fun kv hkv hc => (hex kv hkv hc.1) hc.2))]

/-! ## Claim theorems -/

/-- C1: replaying the buffered deltas `[{U:95,u:100}, {U:101,u:101,b:[[10.0,0]]}]`
against the loaded snapshot `{lastUpdateId:100, bids:[[10.0,1]], asks:[[10.5,1]]}`
under the skip / bridge / gap rule of `_run_once` (lines 96–107), with the
level semantics of `_apply_event` (quantity 0 deletes, nonzero replaces),
yields an empty bid map, an ask map still equal to `{10.5: 1}`, and
`last_applied_update_id = 101`. -/
theorem c1_buffered_replay_scenarioA :
    replay
      (loadSnapshot { lastUpdateId := 100, bids := [(10, 1)], asks := [(21/2, 1)] })
      [{ U := 95, u := 100, b := [], a := [] },
       { U := 101, u := 101, b := [(10, 0)], a := [] }] =
    .ok { bids := [], asks := [(21/2, 1)], bookUpdateId := 101 } := rfl

/-- C2: in the live consumption loop, a delta with `u > last_applied_update_id`
and `U > last_applied_update_id + 1` makes the step raise the sequence-gap
error instead of returning any successor state (so the bid/ask maps are
untouched by it), and one iteration of the outer `start` retry loop on that
error increments the per-venue resync counter by exactly one. -/
theorem c2_live_gap_raises_and_counts_resync (symbol : String) (topN : ℕ)
    (emitFull : Bool) (nowMs : ℕ) (s : L2State) (d : Delta) (c : ℕ)
    (hu : s.bookUpdateId < d.u) (hU : s.bookUpdateId + 1 < d.U) :
    liveStep symbol topN emitFull nowMs s d = .error .gap ∧
    startStep c (liveStep symbol topN emitFull nowMs s d) = c + 1 := by
  have h1 : ¬ d.u ≤ s.bookUpdateId := Nat.not_le.mpr hu
  constructor
  · unfold liveStep
    rw [if_neg h1, if_pos hU]
  · unfold liveStep startStep
    rw [if_neg h1, if_pos hU]

/-- C2 witness: with `last_applied_update_id = 101`, the delta `{U:105,u:110}`
raises the gap error and bumps the resync counter from 0 to 1. -/
theorem c2_live_gap_witness :
    liveStep "BTCUSDT" 10 false 0
        { bids := [(10, 1)], asks := [(11, 1)], bookUpdateId := 101 }
        { U := 105, u := 110, b := [], a := [] } = .error .gap ∧
    startStep 0
        (liveStep "BTCUSDT" 10 false 0
          { bids := [(10, 1)], asks := [(11, 1)], bookUpdateId := 101 }
          { U := 105, u := 110, b := [], a := [] }) = 0 + 1 :=
  c2_live_gap_raises_and_counts_resync "BTCUSDT" 10 false 0
    { bids := [(10, 1)], asks := [(11, 1)], bookUpdateId := 101 }
    { U := 105, u := 110, b := [], a := [] } 0 (by decide) (by decide)

/-- C3: from a well-formed book holding a live order, a partial `match`
(trade size `t` strictly below the remaining size) followed by a second
`match` consuming exactly the remainder removes the order from the
live-order map with no `done` message, and after each of the two messages
every price level stores exactly the sum of the remaining sizes of the live
orders at that price (the level being absent when that sum is zero). -/
theorem c3_l3_match_lifecycle (s : L3State) (oid : String) (ord : L3Order)
    (t : ℚ) (hwf : L3WF s) (hid : oid ≠ "")
    (hget : dictGet s.orders oid = some ord)
    (ht : 0 < t) (hlt : t < ord.size) :
    dictGet (applyMessage s (.matchMsg oid t)).orders oid =
      some ⟨ord.side, ord.price, ord.size - t⟩ ∧
    dictGet (applyMessage (applyMessage s (.matchMsg oid t))
      (.matchMsg oid (ord.size - t))).orders oid = none ∧
    LevelAgg (applyMessage s (.matchMsg oid t)) ∧
    LevelAgg (applyMessage (applyMessage s (.matchMsg oid t))
      (.matchMsg oid (ord.size - t))) := by
  obtain ⟨hwf1, hord1⟩ := match_partial_WF s oid ord t hwf hid hget ht hlt
  have hget1 : dictGet (applyMessage s (.matchMsg oid t)).orders oid =
      some ⟨ord.side, ord.price, ord.size - t⟩ := by
    rw [hord1]
    exact dictGet_dictSet_self _ _ _
  have hfull : applyMessage (applyMessage s (.matchMsg oid t))
      (.matchMsg oid (ord.size - t)) =
      removeOrder (applyMessage s (.matchMsg oid t)) oid :=
    applyMessage_match_full _ oid ⟨ord.side, ord.price, ord.size - t⟩
      (ord.size - t) hid hget1 (le_refl _)
  obtain ⟨hwf2, hord2⟩ := removeOrder_WF _ oid ⟨ord.side, ord.price, ord.size - t⟩
    hwf1 hget1
  refine ⟨hget1, ?_, levelAgg_of_WF _ hwf1, ?_⟩
  · rw [hfull, hord2]
    exact dictGet_dictPop_self _ _ hwf1.1
  · rw [hfull]
    exact levelAgg_of_WF _ hwf2

/-- C3 witness: a book with one buy order of size 2 at price 10; a `match`
of size 1 followed by a `match` of the remaining size removes the order,
and the aggregation invariant holds after each message. -/
theorem c3_l3_match_lifecycle_witness :
    dictGet (applyMessage
        { orders := [("abc", ⟨Side.buy, 10, 2⟩)], buyLevels := [(10, 2)],
          sellLevels := [], lastSequence := 0 }
        (.matchMsg "abc" 1)).orders "abc" = some ⟨Side.buy, 10, 2 - 1⟩ ∧
    dictGet (applyMessage (applyMessage
        { orders := [("abc", ⟨Side.buy, 10, 2⟩)], buyLevels := [(10, 2)],
          sellLevels := [], lastSequence := 0 }
        (.matchMsg "abc" 1)) (.matchMsg "abc" (2 - 1))).orders "abc" = none ∧
    LevelAgg (applyMessage
        { orders := [("abc", ⟨Side.buy, 10, 2⟩)], buyLevels := [(10, 2)],
          sellLevels := [], lastSequence := 0 }
        (.matchMsg "abc" 1)) ∧
    LevelAgg (applyMessage (applyMessage
        { orders := [("abc", ⟨Side.buy, 10, 2⟩)], buyLevels := [(10, 2)],
          sellLevels := [], lastSequence := 0 }
        (.matchMsg "abc" 1)) (.matchMsg "abc" (2 - 1))) :=
  c3_l3_match_lifecycle
    { orders := [("abc", ⟨Side.buy, 10, 2⟩)], buyLevels := [(10, 2)],
      sellLevels := [], lastSequence := 0 }
    "abc" ⟨Side.buy, 10, 2⟩ 1
    (by
      refine ⟨?_, ?_, ?_, ?_, ?_, ?_⟩
      · simp [NodupKeys]
      · intro side
        cases side <;> simp [NodupKeys, levelsOf]
      · intro kv hkv
        simp only [List.mem_singleton] at hkv
        rw [hkv]
        decide
      · intro side pq hpq
        cases side
        · simp [levelsOf] at hpq
          rw [hpq]
          decide
        · simp [levelsOf] at hpq
      · intro side pq hpq
        cases side
        · simp [levelsOf] at hpq
          rw [hpq]
          simp [sumAt, contrib]
        · simp [levelsOf] at hpq
      · intro kv hkv
        simp only [List.mem_singleton] at hkv
        rw [hkv]
        simp [getLevelQty, dictGet, sumAt, contrib])
    (by decide) rfl (by decide) (by decide)

/-- C4 counterexample: the builder does not enforce `best_bid < best_ask`.
Replaying, after the snapshot `{lastUpdateId:100, bids:[[9,1]], asks:[[10,1]]}`,
the single applied delta `{U:101, u:101, b:[[11,1]]}` emits a `BookState`
with both sides non-empty and `best_bid = 11 > 10 = best_ask`, falsifying
the claim's universally-quantified `best_bid < best_ask`. -/
theorem c4_crossed_book_cex :
    runLive "BTCUSDT" 10 false 0
        (loadSnapshot { lastUpdateId := 100, bids := [(9, 1)], asks := [(10, 1)] })
        [{ U := 101, u := 101, b := [(11, 1)], a := [] }] =
      .ok ({ bids := [(9, 1), (11, 1)], asks := [(10, 1)], bookUpdateId := 101 },
        [{ venue := "binance", symbol := "BTCUSDT", ts_exchange_ms := some 0,
           ts_local_ms := 0, kind := "L2", best_bid := 11, best_ask := 10,
           bids := [(11, 1), (9, 1)], asks := [(10, 1)], l3_order_count := none }]) ∧
    ¬((11 : ℚ) < 10) ∧ ([((11 : ℚ), (1 : ℚ)), (9, 1)] ≠ []) ∧
    ([((10 : ℚ), (1 : ℚ))] ≠ []) :=
  ⟨rfl, by decide, by decide, by decide⟩

/-- C4 (amended): for every replay (snapshot load followed by any sequence
of live deltas whose entries carry non-negative quantities), each emitted
`BookState` has strictly positive quantity at every level of both sides,
price-descending bids, price-ascending asks, and `best_bid` / `best_ask`
equal to the price in the first element of the respective list;
`best_bid < best_ask` is not guaranteed (see the counterexample). -/
theorem c4_replay_emitted_invariants (symbol : String) (topN : ℕ)
    (emitFull : Bool) (nowMs : ℕ) (snap : L2Snapshot) (ds : List Delta)
    (final : L2State) (emitted : List BookState) (bs : BookState)
    (hq : ∀ d ∈ ds, (∀ pq ∈ d.b, 0 ≤ pq.2) ∧ (∀ pq ∈ d.a, 0 ≤ pq.2))
    (hrun : runLive symbol topN emitFull nowMs (loadSnapshot snap) ds =
      .ok (final, emitted))
    (hbs : bs ∈ emitted) : EmittedOK bs :=
  runLive_emitted_ok symbol topN emitFull nowMs ds (loadSnapshot snap) final
    emitted (posVals_loadSnapshot snap).1 (posVals_loadSnapshot snap).2 hq hrun
    bs hbs

/-- C4 witness: a concrete one-delta replay emits one `BookState`, and it
satisfies the emitted-state invariants. -/
theorem c4_replay_emitted_witness :
    EmittedOK { venue := "binance", symbol := "BTCUSDT", ts_exchange_ms := some 0,
                ts_local_ms := 0, kind := "L2", best_bid := 10, best_ask := 11,
                bids := [(10, 2)], asks := [(11, 1)], l3_order_count := none } :=
  c4_replay_emitted_invariants "BTCUSDT" 10 false 0
    { lastUpdateId := 100, bids := [(10, 1)], asks := [(11, 1)] }
    [{ U := 101, u := 101, b := [(10, 2)], a := [] }]
    { bids := [(10, 2)], asks := [(11, 1)], bookUpdateId := 101 }
    [{ venue := "binance", symbol := "BTCUSDT", ts_exchange_ms := some 0,
       ts_local_ms := 0, kind := "L2", best_bid := 10, best_ask := 11,
       bids := [(10, 2)], asks := [(11, 1)], l3_order_count := none }]
    { venue := "binance", symbol := "BTCUSDT", ts_exchange_ms := some 0,
      ts_local_ms := 0, kind := "L2", best_bid := 10, best_ask := 11,
      bids := [(10, 2)], asks := [(11, 1)], l3_order_count := none }
    (by decide) rfl (List.mem_singleton.mpr rfl)

/-- Boolean timestamp order on rows is total. -/
theorem tsLe_total (r r' : Row) : tsLe r r' = true ∨ tsLe r' r = true := by
  rcases Nat.le_total r.ts_ms r'.ts_ms with h | h
  · exact Or.inl (decide_eq_true h)
  · exact Or.inr (decide_eq_true h)

/-- Boolean timestamp order on rows is transitive. -/
theorem tsLe_trans (x y z : Row) (h1 : tsLe x y = true) (h2 : tsLe y z = true) :
    tsLe x z = true :=
  decide_eq_true (Nat.le_trans (of_decide_eq_true h1) (of_decide_eq_true h2))

/-- C5: flushing a batch into an empty bucket and then a second batch into
the same bucket (the second flush reading back the page the first wrote)
leaves a page that holds exactly the union of the two batches de-duplicated
on the `(ts_ms, venue)` key — every page row comes from one of the batches,
every batch row's key is represented, keys are unique — sorted ascending by
`ts_ms`. -/
theorem c5_merge_round_trip (fs0 : FS) (b : ℕ) (batch1 batch2 : List Row)
    (hnone : dictGet fs0 b = none) (h1 : batch1 ≠ []) (h2 : batch2 ≠ []) :
    ∃ page,
      dictGet (flush (flush fs0 { bucketMs := some b, rows := batch1 }).1
          { bucketMs := some b, rows := batch2 }).1 b = some page ∧
      page.Pairwise (fun r r' => r.ts_ms ≤ r'.ts_ms) ∧
      (page.map rowKey).Nodup ∧
      (∀ r ∈ page, r ∈ batch1 ++ batch2) ∧
      (∀ r ∈ batch1 ++ batch2, ∃ r' ∈ page, rowKey r' = rowKey r) := by
  have e1 : flush fs0 { bucketMs := some b, rows := batch1 } =
      (dictSet fs0 b batch1, { bucketMs := some b, rows := [] }) := by
    unfold flush
    rw [if_neg h1]
    simp only [Option.getD_some]
    rw [hnone]
  have e2 : flush (dictSet fs0 b batch1) { bucketMs := some b, rows := batch2 } =
      (dictSet (dictSet fs0 b batch1) b
        (sortRows (dedupByKey (batch1 ++ batch2))),
       { bucketMs := some b, rows := [] }) := by
    unfold flush
    rw [if_neg h2]
    simp only [Option.getD_some]
    rw [dictGet_dictSet_self]
  refine ⟨sortRows (dedupByKey (batch1 ++ batch2)), ?_, ?_, ?_, ?_, ?_⟩
  · rw [e1]
    simp only
    rw [e2]
    simp only
    exact dictGet_dictSet_self _ _ _
  · exact (pairwise_sortBy tsLe _ tsLe_total tsLe_trans).imp
      (fun h => of_decide_eq_true h)
  · have hperm : List.Perm ((sortRows (dedupByKey (batch1 ++ batch2))).map rowKey)
        ((dedupByKey (batch1 ++ batch2)).map rowKey) :=
      (perm_sortBy tsLe _).map rowKey
    exact hperm.nodup_iff.mpr (nodup_keys_dedupGo (batch1 ++ batch2) []).1
  · intro r hr
    exact mem_dedupGo_subset _ [] r ((mem_sortBy tsLe r _).mp hr)
  · intro r hr
    rcases key_covered_dedupGo (batch1 ++ batch2) [] r hr with h3 | ⟨r', hr', hkey⟩
    · simp at h3
    · exact ⟨r', (mem_sortBy tsLe r' _).mpr hr', hkey⟩

/-- C5 witness: two concrete one-row batches with distinct keys flushed into
bucket 0 of an empty store satisfy the merged-page properties. -/
theorem c5_merge_round_trip_witness :
    ∃ page,
      dictGet (flush (flush []
          { bucketMs := some 0,
            rows := [{ ts_ms := 5, ts_exchange_ms := none, venue := "binance",
                       symbol := "BTCUSDT", kind := "L2", best_bid := 10,
                       best_ask := 11, bids := [(10, 1)], asks := [(11, 1)],
                       l3_order_count := none }] }).1
          { bucketMs := some 0,
            rows := [{ ts_ms := 3, ts_exchange_ms := none, venue := "coinbase",
                       symbol := "BTC-USD", kind := "L3", best_bid := 9,
                       best_ask := 12, bids := [(9, 1)], asks := [(12, 1)],
                       l3_order_count := some 2 }] }).1 0 = some page ∧
      page.Pairwise (fun r r' => r.ts_ms ≤ r'.ts_ms) ∧
      (page.map rowKey).Nodup ∧
      (∀ r ∈ page,
        r ∈ [{ ts_ms := 5, ts_exchange_ms := none, venue := "binance",
               symbol := "BTCUSDT", kind := "L2", best_bid := 10,
               best_ask := 11, bids := [(10, 1)], asks := [(11, 1)],
               l3_order_count := none }] ++
            [{ ts_ms := 3, ts_exchange_ms := none, venue := "coinbase",
               symbol := "BTC-USD", kind := "L3", best_bid := 9,
               best_ask := 12, bids := [(9, 1)], asks := [(12, 1)],
               l3_order_count := some 2 }]) ∧
      (∀ r ∈ [{ ts_ms := 5, ts_exchange_ms := none, venue := "binance",
                symbol := "BTCUSDT", kind := "L2", best_bid := 10,
                best_ask := 11, bids := [(10, 1)], asks := [(11, 1)],
                l3_order_count := none }] ++
             [{ ts_ms := 3, ts_exchange_ms := none, venue := "coinbase",
                symbol := "BTC-USD", kind := "L3", best_bid := 9,
                best_ask := 12, bids := [(9, 1)], asks := [(12, 1)],
                l3_order_count := some 2 }],
        ∃ r' ∈ page, rowKey r' = rowKey r) :=
  c5_merge_round_trip [] 0 _ _ rfl (by simp) (by simp)

/-- C6: a delta whose end-id `u` is at most the cursor is skipped by both the
buffered-replay loop and the live loop: the state (bid map, ask map, cursor)
returned is the input state itself and nothing is emitted, so every
subsequently emitted `BookState` is identical to processing nothing. -/
theorem c6_stale_delta_idempotent (symbol : String) (topN : ℕ)
    (emitFull : Bool) (nowMs : ℕ) (s : L2State) (d : Delta)
    (h : d.u ≤ s.bookUpdateId) :
    replayStep s d = .ok (s, false) ∧
    liveStep symbol topN emitFull nowMs s d = .ok (s, none) := by
  constructor
  · unfold replayStep; rw [if_pos h]
  · unfold liveStep; rw [if_pos h]

/-- C6 witness: a duplicate delta with `u = 100` against a cursor at 101 is
skipped by both loops. -/
theorem c6_stale_delta_witness :
    replayStep { bids := [(10, 1)], asks := [(11, 1)], bookUpdateId := 101 }
        { U := 95, u := 100, b := [(10, 7)], a := [] } =
      .ok ({ bids := [(10, 1)], asks := [(11, 1)], bookUpdateId := 101 }, false) ∧
    liveStep "BTCUSDT" 10 false 0
        { bids := [(10, 1)], asks := [(11, 1)], bookUpdateId := 101 }
        { U := 95, u := 100, b := [(10, 7)], a := [] } =
      .ok ({ bids := [(10, 1)], asks := [(11, 1)], bookUpdateId := 101 }, none) :=
  c6_stale_delta_idempotent "BTCUSDT" 10 false 0
    { bids := [(10, 1)], asks := [(11, 1)], bookUpdateId := 101 }
    { U := 95, u := 100, b := [(10, 7)], a := [] } (by decide)

/-- C7: once the failed-snapshot counter reaches the budget of 3 with
`allow_l2_fallback` set, the decision at the top of `_run_once` switches to
the REST-only fallback; below the budget (or without the flag) it aborts
the epoch for the normal retry.  Every `BookState` the fallback emits has
`kind = "L2"`, carries no order-level state (`l3_order_count = None`), and
is produced from the REST level-2 snapshot alone with no delta applied. -/
theorem c7_l3_snapshot_fallback (allow : Bool) (f : ℕ) (pid : String)
    (topN nowMs : ℕ) :
    ((allow ∧ 3 ≤ f + 1) → snapshotFailDecision allow f = (f + 1, .fallbackMode)) ∧
    (¬(allow ∧ 3 ≤ f + 1) → snapshotFailDecision allow f = (f + 1, .abortEpoch)) ∧
    (∀ snap bs, restOnlyStep pid topN nowMs snap = some bs →
      bs.kind = "L2" ∧ bs.l3_order_count = none ∧ bs.venue = "coinbase") := by
  refine ⟨fun h => ?_, fun h => ?_, fun snap bs h => ?_⟩
  · unfold snapshotFailDecision; rw [if_pos h]
  · unfold snapshotFailDecision; rw [if_neg h]
  · unfold restOnlyStep at h
    split at h
    · cases h
    · unfold emitStateL2 at h
      split at h
      · cases h
      · cases h
      · cases h
        exact ⟨rfl, rfl, rfl⟩

/-- C7 witness: with the fallback allowed, the third consecutive failure
(counter 2 → 3) selects the fallback mode, while the second (counter 1 → 2)
aborts the epoch; a fallback emission from the snapshot
`([[10,1]], [[11,1]])` is tagged `kind="L2"` with no order count. -/
theorem c7_l3_snapshot_fallback_witness :
    snapshotFailDecision true 2 = (3, .fallbackMode) ∧
    snapshotFailDecision true 1 = (2, .abortEpoch) ∧
    (({ venue := "coinbase", symbol := "BTC-USD", ts_exchange_ms := some 5,
        ts_local_ms := 5, kind := "L2", best_bid := 10, best_ask := 11,
        bids := [(10, 1)], asks := [(11, 1)], l3_order_count := none } :
        BookState).kind = "L2") :=
  ⟨(c7_l3_snapshot_fallback true 2 "BTC-USD" 10 5).1 (by decide),
   (c7_l3_snapshot_fallback true 1 "BTC-USD" 10 5).2.1 (by decide),
   ((c7_l3_snapshot_fallback true 2 "BTC-USD" 10 5).2.2
      (some ([(10, 1)], [(11, 1)]))
      { venue := "coinbase", symbol := "BTC-USD", ts_exchange_ms := some 5,
        ts_local_ms := 5, kind := "L2", best_bid := 10, best_ask := 11,
        bids := [(10, 1)], asks := [(11, 1)], l3_order_count := none }
      (by rfl)).1⟩

/-- C8 counterexample: a `book_state` event whose row serialization fails is
NOT caught by the sink consume loop — the loop iteration returns the error
itself (the Python `handle_book` call inside `run` has no `try`/`except`),
instead of skipping the row and continuing as the claim states. -/
theorem c8_serialization_error_cex :
    sinkStep 300 [] { bucketMs := none, rows := [] }
        { type := "book_state", payload := .malformed "row serialization failed" } =
      .error "row serialization failed" := rfl

/-- C8 (amended): for every `book_state` event whose row serialization
raises, the error propagates out of the sink's consume-loop iteration
uncaught — it is fatal to the sink task rather than skipped. -/
theorem c8_serialization_error_propagates (windowSec : ℕ) (fs : FS)
    (w : WriterState) (ev : SinkEvent) (e : String)
    (htype : ev.type = "book_state") (hser : handleBook ev.payload = .error e) :
    sinkStep windowSec fs w ev = .error e := by
  unfold sinkStep
  rw [if_pos htype, hser]

/-- C8 witness: a malformed payload under the `book_state` tag makes the
concrete sink step fail with its serialization error. -/
theorem c8_serialization_error_witness :
    sinkStep 300 [] { bucketMs := some 0, rows := [] }
        { type := "book_state", payload := .malformed "bad payload" } =
      .error "bad payload" :=
  c8_serialization_error_propagates 300 [] { bucketMs := some 0, rows := [] }
    { type := "book_state", payload := .malformed "bad payload" }
    "bad payload" rfl rfl

/-- C9 counterexample: neither builder publishes with a direct awaited call;
both `_emit_state` call sites hand the `BookState` to
`asyncio.create_task(self.bus.publish(...))`, a detached per-event task. -/
theorem c9_awaited_publish_cex :
    ¬(binanceL2PublishMechanism = .awaitedCall ∧
      coinbaseL3PublishMechanism = .awaitedCall) := by decide

/-- C9 (amended): both builders publish each `BookState` by spawning a
detached per-event task wrapping `bus.publish` (not an awaited call), and
each builder's applied-sequence cursor strictly increases on every applied,
emitting step — so the builder constructs its `BookState`s in strictly
increasing applied-sequence order, but FIFO hand-off to the bus consumer is
not enforced by an awaited publish. -/
theorem c9_detached_publish_and_monotone_cursor :
    binanceL2PublishMechanism = .detachedTask ∧
    coinbaseL3PublishMechanism = .detachedTask ∧
    (∀ (symbol : String) (topN : ℕ) (emitFull : Bool) (nowMs : ℕ)
       (s : L2State) (d : Delta) (s' : L2State) (bs : BookState),
       liveStep symbol topN emitFull nowMs s d = .ok (s', some bs) →
       s.bookUpdateId < s'.bookUpdateId) ∧
    (∀ (pid : String) (topN nowMs : ℕ) (s : L3State) (m : L3Msg) (seq : ℕ)
       (ts : Option ℕ) (s' : L3State) (bs : BookState),
       l3LiveStep pid topN nowMs s m seq ts = .ok (s', some bs) →
       s.lastSequence < s'.lastSequence) := by
  refine ⟨rfl, rfl, ?_, ?_⟩
  · intro symbol topN emitFull nowMs s d s' bs h
    unfold liveStep at h
    by_cases h1 : d.u ≤ s.bookUpdateId
    · rw [if_pos h1] at h
      simp at h
    · rw [if_neg h1] at h
      by_cases h2 : s.bookUpdateId + 1 < d.U
      · rw [if_pos h2] at h
        cases h
      · rw [if_neg h2] at h
        simp only [Except.ok.injEq, Prod.mk.injEq] at h
        have h3 := h.1
        have : s'.bookUpdateId = d.u := by rw [← h3]
        omega
  · intro pid topN nowMs s m seq ts s' bs h
    unfold l3LiveStep at h
    by_cases h1 : seq ≤ s.lastSequence
    · rw [if_pos h1] at h
      simp at h
    · rw [if_neg h1] at h
      by_cases h2 : s.lastSequence + 1 < seq
      · rw [if_pos h2] at h
        cases h
      · rw [if_neg h2] at h
        simp only [Except.ok.injEq, Prod.mk.injEq] at h
        have h3 := h.1
        have : s'.lastSequence = seq := by rw [← h3]
        omega

/-- C9 witness: a concrete applied-and-emitted live step advances the L2
cursor from 100 to 101, and the publish call sites are detached tasks. -/
theorem c9_detached_publish_witness :
    (100 : ℕ) < 101 ∧ binanceL2PublishMechanism = .detachedTask :=
  ⟨c9_detached_publish_and_monotone_cursor.2.2.1 "BTCUSDT" 1 false 0
      { bids := [(10, 1)], asks := [(11, 1)], bookUpdateId := 100 }
      { U := 101, u := 101, b := [(10, 2)], a := [] }
      { bids := [(10, 2)], asks := [(11, 1)], bookUpdateId := 101 }
      { venue := "binance", symbol := "BTCUSDT", ts_exchange_ms := some 0,
        ts_local_ms := 0, kind := "L2", best_bid := 10, best_ask := 11,
        bids := [(10, 2)], asks := [(11, 1)], l3_order_count := none }
      (by rfl),
   c9_detached_publish_and_monotone_cursor.1⟩

/-- C10: a `match`, `done` or `change` message whose referenced order id
(`maker_order_id` for `match`, `order_id` otherwise) is not in the
live-order map leaves the whole builder state — order map and both
aggregated level maps — unchanged; `_apply_message` is total, so no error
is raised. -/
theorem c10_absent_order_noop (s : L3State) (oid : String) (t ns : ℚ)
    (h : dictGet s.orders oid = none) :
    applyMessage s (.matchMsg oid t) = s ∧
    applyMessage s (.doneMsg oid) = s ∧
    applyMessage s (.changeMsg oid ns) = s := by
  refine ⟨?_, ?_, ?_⟩ <;> simp only [applyMessage]
  · by_cases h0 : oid = ""
    · rw [if_pos h0]
    · rw [if_neg h0, h]
  · by_cases h0 : oid = ""
    · rw [if_pos h0]
    · rw [if_neg h0]
      unfold removeOrder
      rw [h]
  · by_cases h0 : oid = ""
    · rw [if_pos h0]
    · rw [if_neg h0, h]

/-- C10 witness: against a one-order book, `match`/`done`/`change` messages
referencing an unknown id `"zzz"` are complete no-ops. -/
theorem c10_absent_order_witness :
    applyMessage
        { orders := [("abc", ⟨.buy, 10, 2⟩)], buyLevels := [(10, 2)],
          sellLevels := [], lastSequence := 7 } (.matchMsg "zzz" 1) =
      { orders := [("abc", ⟨.buy, 10, 2⟩)], buyLevels := [(10, 2)],
        sellLevels := [], lastSequence := 7 } ∧
    applyMessage
        { orders := [("abc", ⟨.buy, 10, 2⟩)], buyLevels := [(10, 2)],
          sellLevels := [], lastSequence := 7 } (.doneMsg "zzz") =
      { orders := [("abc", ⟨.buy, 10, 2⟩)], buyLevels := [(10, 2)],
        sellLevels := [], lastSequence := 7 } ∧
    applyMessage
        { orders := [("abc", ⟨.buy, 10, 2⟩)], buyLevels := [(10, 2)],
          sellLevels := [], lastSequence := 7 } (.changeMsg "zzz" 5) =
      { orders := [("abc", ⟨.buy, 10, 2⟩)], buyLevels := [(10, 2)],
        sellLevels := [], lastSequence := 7 } :=
  c10_absent_order_noop
    { orders := [("abc", ⟨.buy, 10, 2⟩)], buyLevels := [(10, 2)],
      sellLevels := [], lastSequence := 7 } "zzz" 1 5 (by rfl)

end OB
